import Mathlib

/-!
# Shallow embedding of the `stream_workflow` execution kernel

This file embeds, in Lean 4, the parts of the `stream_workflow` Python
package that the verified properties talk about:

* `src/stream_workflow/core/parameter.py` — `ParameterSchema`,
  `FieldSchema`, value validation, structural schema equality,
  `StreamChunk`;
* `src/stream_workflow/core/connection.py` — `Connection` construction
  and validation, `ConnectionManager.route_chunk` and `transfer_value`;
* `src/stream_workflow/core/node.py` — `Node.emit_chunk`,
  `Node._execute_async`, `Node._resolve_value`;
* `src/stream_workflow/core/workflow.py` — `WorkflowEngine.start`,
  `WorkflowEngine.execute`, `WorkflowEngine.stop`,
  `WorkflowEngine.render_template`,
  `WorkflowEngine._transfer_non_streaming_outputs`.

Modelling conventions:

* Python values are the inductive `PValue`.  `PValue.none` is Python
  `None`.  Python floats are carried by their literal text
  (`PValue.float lit`); no floating-point arithmetic occurs in any
  verified property.  Python `dict`s are association lists in insertion
  order.  Python `==` on these value trees is `pyEq`: numbers
  (`bool`/`int`/`float`) compare by numeric value (`1 == True`,
  `1 == 1.0`; float literals as exact decimals), lists pointwise, and
  dicts as finite maps — same key sets with equal values, regardless of
  insertion order.  A separate constructor-wise `structEq` only powers
  `DecidableEq PValue` for the Lean side.
* `isinstance` is embedded by `pyIsinstance`, including the Python fact
  that `bool` is a subclass of `int`.
* Exceptions are embedded with `Except`.  `asyncio.Queue`s are lists in
  FIFO order.  The engine's single-threaded cooperative scheduling lets
  the sequential phase be embedded as a pure fold over the node list.
-/

namespace StreamWorkflow

/-- A Python value as it appears in schema shapes, node configs and
stream chunks.  `none` is Python `None`; `dict` keeps its fields in
insertion order; `float` carries the literal text of the float and is
never computed with. -/
inductive PValue where
  | none : PValue
  | bool (b : Bool) : PValue
  | int (n : Int) : PValue
  | float (lit : String) : PValue
  | str (s : String) : PValue
  | bytes (bs : List Nat) : PValue
  | list (xs : List PValue) : PValue
  | dict (fields : List (String × PValue)) : PValue

mutual

/-- Structural equality of the *embedding* (constructor-wise), used
only to derive `DecidableEq PValue` so Lean-level equalities are
decidable.  This is NOT Python `==`; that relation is `pyEq` below. -/
def structEq : PValue → PValue → Bool
  | .none, .none => true
  | .bool a, .bool b => a == b
  | .int a, .int b => a == b
  | .float a, .float b => a == b
  | .str a, .str b => a == b
  | .bytes a, .bytes b => a == b
  | .list xs, .list ys => structEqList xs ys
  | .dict xs, .dict ys => structEqFields xs ys
  | _, _ => false

/-- Pointwise `structEq` on lists. -/
def structEqList : List PValue → List PValue → Bool
  | [], [] => true
  | x :: xs, y :: ys => structEq x y && structEqList xs ys
  | _, _ => false

/-- Pointwise `structEq` on field lists. -/
def structEqFields : List (String × PValue) → List (String × PValue) → Bool
  | [], [] => true
  | (k, v) :: xs, (l, w) :: ys => k == l && structEq v w && structEqFields xs ys
  | _, _ => false

end

mutual

def structEq_iff (a b : PValue) : structEq a b = true ↔ a = b := by
  cases a <;> cases b <;>
    simp [structEq]
  case list.list xs ys => exact (structEqList_iff xs ys).trans (by simp)
  case dict.dict xs ys => exact (structEqFields_iff xs ys).trans (by simp)

def structEqList_iff (xs ys : List PValue) : structEqList xs ys = true ↔ xs = ys := by
  cases xs <;> cases ys <;> simp [structEqList]
  case cons.cons x xs y ys =>
    rw [structEq_iff x y, structEqList_iff xs ys]

def structEqFields_iff (xs ys : List (String × PValue)) :
    structEqFields xs ys = true ↔ xs = ys := by
  cases xs <;> cases ys <;> simp [structEqFields]
  case cons.cons p xs q ys =>
    cases p; cases q
    simp only [structEqFields, Bool.and_eq_true, beq_iff_eq, structEq_iff,
      structEqFields_iff xs ys, Prod.mk.injEq]

end

instance : DecidableEq PValue := fun a b => decidable_of_iff _ (structEq_iff a b)

/-- Python `key in d` on an (insertion-ordered) dict. -/
def dictContains (d : List (String × PValue)) (k : String) : Bool :=
  d.any (fun p => p.1 == k)

/-- Python `d.get(k)`: the value bound to `k`, or `None` when absent. -/
def dictGet (d : List (String × PValue)) (k : String) : PValue :=
  match d.find? (fun p => p.1 == k) with
  | some p => p.2
  | Option.none => PValue.none

/-- Python `d.get(k, dflt)`. -/
def dictGetD (d : List (String × PValue)) (k : String) (dflt : PValue) : PValue :=
  match d.find? (fun p => p.1 == k) with
  | some p => p.2
  | Option.none => dflt

/-- Python `d[k] = v`: overwrite the entry for `k` in place when the
key exists, else append at the end (dict insertion order; keys of a
Python dict are unique). -/
def dictSet : List (String × PValue) → String → PValue → List (String × PValue)
  | [], k, v => [(k, v)]
  | p :: rest, k, v =>
    if p.1 == k then (p.1, v) :: rest else p :: dictSet rest k v

mutual

/-- Nesting depth of a value (scalars have depth 1); used as fuel for
the Python `==` recursion, which descends only through the left
argument's sub-values. -/
def pyDepth : PValue → Nat
  | PValue.list xs => pyDepthList xs + 1
  | PValue.dict xs => pyDepthFields xs + 1
  | _ => 1

/-- Maximal depth of the elements of a list. -/
def pyDepthList : List PValue → Nat
  | [] => 0
  | v :: rest => max (pyDepth v) (pyDepthList rest)

/-- Maximal depth of the values of a field list. -/
def pyDepthFields : List (String × PValue) → Nat
  | [] => 0
  | p :: rest => max (pyDepth p.2) (pyDepthFields rest)

end

/-- Split a character list at every occurrence of `sep`. -/
def splitOnChar (sep : Char) : List Char → List (List Char)
  | [] => [[]]
  | c :: rest =>
    let r := splitOnChar sep rest
    if c = sep then [] :: r
    else
      match r with
      | h :: t => (c :: h) :: t
      | [] => [[c]]

/-- Consume an optional leading sign; return whether it was `-`. -/
def parseSign : List Char → (Bool × List Char)
  | '-' :: rest => (true, rest)
  | '+' :: rest => (false, rest)
  | l => (false, l)

/-- Numeric value of a digit list. -/
def digitsVal (l : List Char) : Nat :=
  l.foldl (fun a c => 10 * a + (c.toNat - 48)) 0

/-- Parse a non-empty all-digit list. -/
def parseDigits (l : List Char) : Option Nat :=
  if !l.isEmpty && l.all Char.isDigit then some (digitsVal l) else Option.none

/-- Apply a sign to a natural number. -/
def signVal (neg : Bool) (n : Nat) : Int :=
  if neg then -(n : Int) else (n : Int)

/-- Parse a decimal mantissa `[sign] digits [. digits]` (at least one
digit overall) into `(m, e)` representing `m * 10 ^ e`. -/
def parseMantissa (l : List Char) : Option (Int × Int) :=
  let s := parseSign l
  match splitOnChar '.' s.2 with
  | [ip] =>
    if !ip.isEmpty && ip.all Char.isDigit then
      some (signVal s.1 (digitsVal ip), 0)
    else Option.none
  | [ip, fp] =>
    if (ip.all Char.isDigit && fp.all Char.isDigit) && !(ip.isEmpty && fp.isEmpty) then
      some (signVal s.1 (digitsVal (ip ++ fp)), -(fp.length : Int))
    else Option.none
  | _ => Option.none

/-- Parse an exponent `[sign] digits`. -/
def parseExp (l : List Char) : Option Int :=
  let s := parseSign l
  match parseDigits s.2 with
  | some n => some (signVal s.1 n)
  | Option.none => Option.none

/-- Parse a finite decimal float literal (optionally with an `e`/`E`
exponent) into `(m, e)` representing the exact value `m * 10 ^ e`.
Literals outside this grammar (`inf`, `nan`, underscores) do not
parse. -/
def parseFloatPair (s : String) : Option (Int × Int) :=
  match splitOnChar 'e' (s.toList.map Char.toLower) with
  | [m] => parseMantissa m
  | [m, x] =>
    match parseMantissa m, parseExp x with
    | some mv, some ev => some (mv.1, mv.2 + ev)
    | _, _ => Option.none
  | _ => Option.none

/-- The numeric value of a Python number, as `(m, e)` for `m * 10 ^ e`:
Python `bool` is a subclass of `int` with values 0 and 1; a float
contributes the exact decimal value of its literal (floats are compared
as exact decimals here, adequate for the literal-written schema values
this development evaluates; IEEE rounding is not modelled). -/
def numVal : PValue → Option (Int × Int)
  | PValue.bool b => some (if b then (1 : Int) else 0, 0)
  | PValue.int n => some (n, 0)
  | PValue.float lit => parseFloatPair lit
  | _ => Option.none

/-- Equality of two scaled decimals `m * 10 ^ e`. -/
def decEq10 (x y : Int × Int) : Bool :=
  if y.2 ≤ x.2 then x.1 * (10 : Int) ^ (x.2 - y.2).toNat == y.1
  else x.1 == y.1 * (10 : Int) ^ (y.2 - x.2).toNat

/-- Python `==` on embedded values, with `fuel` bounding the recursion
depth along the left argument (every recursive call descends into a
sub-value of the left argument, so `pyDepth a` fuel suffices):
numbers (`bool`/`int`/`float`) compare by numeric value, so `1 == True`
and `1 == 1.0`; `None`, strings and bytes compare against their own
kind; lists compare pointwise; dicts compare as finite maps — same key
sets and, key by key, equal values — regardless of insertion order.
Float literals outside the finite-decimal grammar fall back to literal
text comparison (CPython compares container elements with an identity
shortcut, so a dict is always `==` to itself). -/
def pyEqFuel : Nat → PValue → PValue → Bool
  | 0, _, _ => false
  | Nat.succ fuel, a, b =>
    match numVal a, numVal b with
    | some x, some y => decEq10 x y
    | _, _ =>
      match a, b with
      | PValue.none, PValue.none => true
      | PValue.str s1, PValue.str s2 => s1 == s2
      | PValue.bytes b1, PValue.bytes b2 => b1 == b2
      | PValue.float l1, PValue.float l2 => l1 == l2
      | PValue.list xs, PValue.list ys =>
        xs.length == ys.length &&
          (List.zip xs ys).all (fun p => pyEqFuel fuel p.1 p.2)
      | PValue.dict xs, PValue.dict ys =>
        xs.all (fun p => dictContains ys p.1) &&
          ys.all (fun p => dictContains xs p.1) &&
          xs.all (fun p => pyEqFuel fuel (dictGet xs p.1) (dictGet ys p.1))
      | _, _ => false

/-- Python `==` on embedded values (see `pyEqFuel`). -/
def pyEq (a b : PValue) : Bool :=
  pyEqFuel (pyDepth a) a b

/-- `parameter.py` `ParameterSchema.__init__`: `is_streaming`, the raw
`schema` shape value (a primitive-tag string or a field dict, stored as
passed), and the free-text description. -/
structure ParameterSchema where
  is_streaming : Bool
  schema : PValue
  description : String
deriving DecidableEq

/-- `ParameterSchema.matches`: the two `is_streaming` flags agree and
the raw shape values are deeply equal (Python `==`); the description is
ignored. -/
def ParameterSchema.matches (a b : ParameterSchema) : Bool :=
  a.is_streaming == b.is_streaming && pyEq a.schema b.schema

/-- The data of the `ConfigurationError` raised by
`Connection._validate`: both endpoints and both schemas are named in
the message. -/
structure ConfigurationError where
  source : String × String
  target : String × String
  source_schema : ParameterSchema
  target_schema : ParameterSchema
deriving DecidableEq

/-- `connection.py` `Connection` after a successful `__init__`:
endpoints, the two schemas, `is_streaming` derived from the source
schema, and the external-connection flag (`external_handler` is an
opaque callback and is not carried here). -/
structure Connection where
  source : String × String
  target : String × String
  source_schema : ParameterSchema
  target_schema : ParameterSchema
  is_streaming : Bool
  is_external : Bool
deriving DecidableEq

/-- `Connection.__init__` plus `Connection._validate`: construction
succeeds only when `source_schema.matches(target_schema)`; otherwise a
`ConfigurationError` naming both endpoints and schemas is raised. -/
def Connection.make (source_node source_param target_node target_param : String)
    (source_schema target_schema : ParameterSchema) :
    Except ConfigurationError Connection :=
  if source_schema.matches target_schema then
    Except.ok
      { source := (source_node, source_param)
        target := (target_node, target_param)
        source_schema := source_schema
        target_schema := target_schema
        is_streaming := source_schema.is_streaming
        is_external := false }
  else
    Except.error
      { source := (source_node, source_param)
        target := (target_node, target_param)
        source_schema := source_schema
        target_schema := target_schema }

/-- `connection.py` `ConnectionManager`: the `_connections` list (the
classified sub-lists and the `(source_node, source_param)` index are
derived views of it). -/
structure ConnectionManager where
  connections : List Connection

/-- One graph-build step on the manager: `add_connection` (an internal
edge between two node ports, the endpoint schemas read off the port
parameters) or `add_external_connection` (an external sink). -/
inductive MgrOp where
  | internal (source_node source_param target_node target_param : String)
      (source_schema target_schema : ParameterSchema)
  | external (source_node source_param : String) (source_schema : ParameterSchema)

/-- `ConnectionManager.add_connection` / `add_external_connection`
followed by `_add_connection`.  A `ConfigurationError` raised by
`Connection.__init__` aborts the step and adds nothing.  The external
case targets `("external", "handler")`, passes the source schema for
both ends (`source_schema, source_schema` in the source) and then
marks `is_external`. -/
def ConnectionManager.applyOp (m : ConnectionManager) (op : MgrOp) :
    ConnectionManager :=
  match op with
  | MgrOp.internal sn sp tn tp ss ts =>
    match Connection.make sn sp tn tp ss ts with
    | Except.ok c => { connections := m.connections ++ [c] }
    | Except.error _ => m
  | MgrOp.external sn sp ss =>
    match Connection.make sn sp "external" "handler" ss ss with
    | Except.ok c =>
      { connections := m.connections ++ [{ c with is_external := true }] }
    | Except.error _ => m

/-- The manager that results from a sequence of build steps starting
from `__init__` (empty connection list). -/
def ConnectionManager.build (ops : List MgrOp) : ConnectionManager :=
  ops.foldl ConnectionManager.applyOp { connections := [] }

/-- A sample streaming schema used by concrete witness instances. -/
def sampleSchema : ParameterSchema :=
  { is_streaming := true
    schema := PValue.dict [("audio", PValue.str "bytes"), ("rate", PValue.str "integer")]
    description := "" }

/-- A schema differing from `sampleSchema` in one field type. -/
def sampleSchemaMismatch : ParameterSchema :=
  { is_streaming := true
    schema := PValue.dict [("audio", PValue.str "bytes"), ("rate", PValue.str "string")]
    description := "" }

/-- `sampleSchema` with its shape keys declared in the opposite order
(equal under Python dict `==`). -/
def sampleSchemaPermuted : ParameterSchema :=
  { is_streaming := true
    schema := PValue.dict [("rate", PValue.str "integer"), ("audio", PValue.str "bytes")]
    description := "" }

/-- A shape with a detailed field descriptor `required: True`. -/
def sampleSchemaDetailed : ParameterSchema :=
  { is_streaming := false
    schema := PValue.dict [("x", PValue.dict [("type", PValue.str "integer"),
      ("required", PValue.bool true)])]
    description := "" }

/-- The same shape with permuted descriptor keys and `required: 1`
(equal under Python `==`, since `1 == True`). -/
def sampleSchemaDetailedInt : ParameterSchema :=
  { is_streaming := false
    schema := PValue.dict [("x", PValue.dict [("required", PValue.int 1),
      ("type", PValue.str "integer")])]
    description := "" }

/-- A Python native type appearing in `parameter.py`'s `TYPE_MAP`
(`object` is the entry for tag `"any"`). -/
inductive PyTy where
  | bytes | str | int | float | bool | dict | list | obj
deriving DecidableEq

/-- `TYPE_MAP.get(t)`: the native type registered for a primitive-tag
key, `none` for any other key (including non-string keys, for which a
Python dict lookup simply misses). -/
def typeMapGet : PValue → Option PyTy
  | PValue.str "bytes" => some PyTy.bytes
  | PValue.str "string" => some PyTy.str
  | PValue.str "integer" => some PyTy.int
  | PValue.str "float" => some PyTy.float
  | PValue.str "boolean" => some PyTy.bool
  | PValue.str "dict" => some PyTy.dict
  | PValue.str "list" => some PyTy.list
  | PValue.str "any" => some PyTy.obj
  | _ => none

/-- `isinstance(v, ty)` for the embedded values.  Python's `bool` is a
subclass of `int`, so a `bool` value is an instance of `int`; every
value is an instance of `object`. -/
def pyIsinstance : PValue → PyTy → Bool
  | _, PyTy.obj => true
  | PValue.bool _, PyTy.bool => true
  | PValue.bool _, PyTy.int => true
  | PValue.int _, PyTy.int => true
  | PValue.float _, PyTy.float => true
  | PValue.str _, PyTy.str => true
  | PValue.bytes _, PyTy.bytes => true
  | PValue.list _, PyTy.list => true
  | PValue.dict _, PyTy.dict => true
  | _, _ => false

/-- Python truthiness of an embedded value (`None`, `False`, zero and
empty containers are falsy).  A float literal is falsy when it is made
only of zero digits, signs and a point — an approximation adequate here
because no verified property evaluates truthiness of a float. -/
def pyTruthy : PValue → Bool
  | PValue.none => false
  | PValue.bool b => b
  | PValue.int n => n != 0
  | PValue.float lit => !lit.toList.all (fun c => c = '0' || c = '.' || c = '-' || c = '+')
  | PValue.str s => s != ""
  | PValue.bytes bs => !bs.isEmpty
  | PValue.list xs => !xs.isEmpty
  | PValue.dict fs => !fs.isEmpty

/-- The errors raised by value validation in `parameter.py`:
`TypeError` for a primitive mismatch, `ValueError` for a non-dict value
against a dict schema, a missing required field, or a malformed field
definition. -/
inductive VErr where
  | typeMismatch (expected : PValue) (actual : PValue)
  | notADict (actual : PValue)
  | missingField (name : String)
  | badFieldDef (fieldDef : PValue)
deriving DecidableEq

/-- `parameter.py` `FieldSchema` after `_parse`: the four attributes,
each stored raw as the Python code does (`type`, `required` and
`default` may be arbitrary values read from a detailed field dict). -/
structure FieldSchema where
  type_ : PValue
  required : PValue
  description : PValue
  default : PValue
deriving DecidableEq

/-- `FieldSchema._parse`: a bare string is a type tag with no default
and `required=False`; a dict is the detailed form read with `.get` and
its defaults; anything else raises `ValueError`. -/
def FieldSchema.parse (field_def : PValue) : Except VErr FieldSchema :=
  match field_def with
  | PValue.str t =>
    Except.ok
      { type_ := PValue.str t, required := PValue.bool false
        description := PValue.str "", default := PValue.none }
  | PValue.dict d =>
    Except.ok
      { type_ := dictGetD d "type" (PValue.str "any")
        required := dictGetD d "required" (PValue.bool false)
        description := dictGetD d "description" (PValue.str "")
        default := dictGetD d "default" PValue.none }
  | other => Except.error (VErr.badFieldDef other)

/-- `FieldSchema.is_required` (the stored value used under Python
truthiness). -/
def FieldSchema.isRequired (fs : FieldSchema) : Bool :=
  pyTruthy fs.required

/-- `FieldSchema.validate_value`: `None` passes (handled by callers);
otherwise, when the type tag is registered in `TYPE_MAP` and is not
`object`, the value must be an instance of the registered native
type. -/
def FieldSchema.validateValue (fs : FieldSchema) (v : PValue) : Except VErr Unit :=
  if v = PValue.none then Except.ok ()
  else
    match typeMapGet fs.type_ with
    | some ty =>
      if ty = PyTy.obj then Except.ok ()
      else if pyIsinstance v ty then Except.ok ()
      else Except.error (VErr.typeMismatch fs.type_ v)
    | Option.none => Except.ok ()

/-- One iteration of the field loop in `ParameterSchema.validate_value`
for a declared field `name` with definition `field_def`, acting on the
value dict `d`: when `name` is absent, materialize a non-`None` default
into `d`, else fail when the field is required; then, when the field is
(now) present, validate its value against the field schema. -/
def validateField (d : List (String × PValue)) (name : String) (field_def : PValue) :
    Except VErr (List (String × PValue)) :=
  match FieldSchema.parse field_def with
  | Except.error e => Except.error e
  | Except.ok fs =>
    let step1 : Except VErr (List (String × PValue)) :=
      if !dictContains d name then
        if fs.default != PValue.none then Except.ok (dictSet d name fs.default)
        else if fs.isRequired then Except.error (VErr.missingField name)
        else Except.ok d
      else Except.ok d
    match step1 with
    | Except.error e => Except.error e
    | Except.ok d1 =>
      if dictContains d1 name then
        match fs.validateValue (dictGet d1 name) with
        | Except.error e => Except.error e
        | Except.ok _ => Except.ok d1
      else Except.ok d1

/-- The field loop of `ParameterSchema.validate_value` over the
declared schema fields in order, threading the (mutated) value dict. -/
def validateFields : List (String × PValue) → List (String × PValue) →
    Except VErr (List (String × PValue))
  | [], d => Except.ok d
  | (name, fd) :: rest, d =>
    match validateField d name fd with
    | Except.ok d1 => validateFields rest d1
    | Except.error e => Except.error e

/-- `ParameterSchema.validate_value`: a string shape is a primitive tag
(`None` allowed, otherwise validated through a `FieldSchema`); a dict
shape requires a dict value and runs the field loop (the returned value
carries the materialized defaults); any other shape accepts any
value. -/
def ParameterSchema.validateValue (ps : ParameterSchema) (v : PValue) :
    Except VErr PValue :=
  match ps.schema with
  | PValue.str t =>
    if v = PValue.none then Except.ok v
    else
      match FieldSchema.parse (PValue.str t) with
      | Except.error e => Except.error e
      | Except.ok fs =>
        match fs.validateValue v with
        | Except.error e => Except.error e
        | Except.ok _ => Except.ok v
  | PValue.dict fields =>
    match v with
    | PValue.dict dv =>
      match validateFields fields dv with
      | Except.ok dv1 => Except.ok (PValue.dict dv1)
      | Except.error e => Except.error e
    | other => Except.error (VErr.notADict other)
  | _ => Except.ok v

/-- `parameter.py` `StreamChunk`: a payload validated against the
port's schema at construction (`schema.validate_value(data)`); the
wall-clock `timestamp` attribute is not modelled.  Construction fails
exactly when validation raises. -/
def StreamChunk.make (data : PValue) (schema : ParameterSchema) : Except VErr PValue :=
  match schema.validateValue data with
  | Except.ok _ => Except.ok data
  | Except.error e => Except.error e

/-- A port, identified globally by `(node_id, param_name)`. -/
abbrev PortKey := String × String

/-- A connection as wired by `ConnectionManager.add_connection`: after
`Connection.__init__`, a streaming connection gets `target_queue` (the
target parameter's `stream_queue`) and a non-streaming one gets
`target_param_ref`; external connections get neither.  The two `has_*`
flags record whether those references are set and non-`None`. -/
structure WiredConn where
  source : PortKey
  target : PortKey
  source_schema : ParameterSchema
  target_schema : ParameterSchema
  is_streaming : Bool
  is_external : Bool
  has_target_queue : Bool
  has_target_ref : Bool
deriving DecidableEq

/-- The streaming input queues, one per port, each a FIFO list of chunk
payloads (oldest first). -/
abbrev Queues := PortKey → List PValue

/-- The loop body of `ConnectionManager.route_chunk` for one connection:
an external connection invokes its callback (no queue changes); an
internal streaming connection with a queue appends the chunk to the
target queue; any other connection is skipped. -/
def routeDeliver (c : PValue) (qs : Queues) (conn : WiredConn) : Queues :=
  if conn.is_external then qs
  else if conn.is_streaming && conn.has_target_queue then
    fun t => if t = conn.target then qs t ++ [c] else qs t
  else qs

/-- `ConnectionManager.route_chunk`: look up the connections outgoing
from the source port (`_source_index`, which preserves insertion order)
and deliver the chunk to each in turn. -/
def routeChunk (conns : List WiredConn) (src : PortKey) (c : PValue) (qs : Queues) :
    Queues :=
  (conns.filter (fun conn => conn.source == src)).foldl (routeDeliver c) qs

/-- Does this connection put chunks from `src` onto the queue of target
port `t`?  (Internal, streaming, queue attached.) -/
def deliversTo (src t : PortKey) (conn : WiredConn) : Bool :=
  (!conn.is_external && (conn.is_streaming && conn.has_target_queue)) &&
    conn.target == t && conn.source == src

/-- `Node.emit_chunk`: reject an unknown output parameter or a
non-streaming one, validate the payload by constructing a
`StreamChunk`, then route it.  `outputs` is the node's output-parameter
map `name ↦ schema`. -/
def emitChunk (conns : List WiredConn) (outputs : List (String × ParameterSchema))
    (nodeId paramName : String) (data : PValue) (qs : Queues) :
    Except VErr Queues :=
  match outputs.find? (fun p => p.1 == paramName) with
  | Option.none => Except.error (VErr.missingField paramName)
  | some p =>
    if !p.2.is_streaming then Except.error (VErr.missingField paramName)
    else
      match StreamChunk.make data p.2 with
      | Except.error e => Except.error e
      | Except.ok _ => Except.ok (routeChunk conns (nodeId, paramName) data qs)

/-- A sequence of `emit_chunk` calls on the same output port, in
order. -/
def emitSeq (conns : List WiredConn) (outputs : List (String × ParameterSchema))
    (nodeId paramName : String) : List PValue → Queues → Except VErr Queues
  | [], qs => Except.ok qs
  | c :: rest, qs =>
    match emitChunk conns outputs nodeId paramName c qs with
    | Except.ok qs1 => emitSeq conns outputs nodeId paramName rest qs1
    | Except.error e => Except.error e

/-- A node's `EXECUTION_MODE`. -/
inductive ExecMode where
  | sequential | streaming | hybrid
deriving DecidableEq

/-- The behavior of one node instance, as the engine observes it: its
id, mode, what its `initialize(context)` does and what its
`execute(context)` does (each either returns or raises, the raised
exception being an opaque token). -/
structure NodeSpec where
  id : String
  mode : ExecMode
  initResult : Except String Unit
  execResult : Except String Unit
  streamingInputs : List String

/-- `exceptions.py` `NodeExecutionError`: carries the offending node's
id and the original exception. -/
structure NodeExecutionError where
  node_id : String
  original_error : String
deriving DecidableEq

/-- `Node._execute_async` as observed by the sequential phase: any
exception raised by `execute` is re-raised as a `NodeExecutionError`
carrying the node id and the original error (config-resolution failures
degrade to a warning and do not raise; the node starts from a
non-`RUNNING` status, so the early-return guard does not fire). -/
def execAsync (n : NodeSpec) : Except NodeExecutionError Unit :=
  match n.execResult with
  | Except.ok _ => Except.ok ()
  | Except.error e => Except.error { node_id := n.id, original_error := e }

/-- `WorkflowEngine.start`'s node classification: `_sequential_nodes`
is the declaration-order list of `sequential` and `hybrid` nodes
(`self._nodes` preserves config declaration order). -/
def seqNodes (ns : List NodeSpec) : List NodeSpec :=
  ns.filter (fun n => n.mode != ExecMode.streaming)

/-- The loop of `WorkflowEngine.execute` over `_sequential_nodes`:
each node is run through `_execute_async`; on an exception the failure
is logged and, unless `continue_on_error`, re-raised (aborting the
loop, and `execute` re-raises it).  The returned list records the ids
whose `execute` was invoked, in invocation order. -/
def executePhase (continue_on_error : Bool) :
    List NodeSpec → List String × Except NodeExecutionError Unit
  | [] => ([], Except.ok ())
  | n :: rest =>
    match execAsync n with
    | Except.ok _ =>
      let r := executePhase continue_on_error rest
      (n.id :: r.1, r.2)
    | Except.error e =>
      if continue_on_error then
        let r := executePhase continue_on_error rest
        (n.id :: r.1, r.2)
      else ([n.id], Except.error e)

/-- `WorkflowEngine.execute`: run the sequential phase over the
classified `_sequential_nodes` of the declared node list. -/
def engineExecute (continue_on_error : Bool) (ns : List NodeSpec) :
    List String × Except NodeExecutionError Unit :=
  executePhase continue_on_error (seqNodes ns)

/-- The engine state that `WorkflowEngine.stop` acts on: the
`_running` flag, the end-of-stream sentinels enqueued so far (one entry
per `put(None)`, in order) and the log of `shutdown` invocations (node
ids, in order). -/
structure StopState where
  running : Bool
  sentinels : List PortKey
  shutdownLog : List String
deriving DecidableEq

/-- `WorkflowEngine.stop`: a no-op when not running; otherwise clear
`_running`, enqueue an end-of-stream sentinel on every streaming input
queue, cancel and await the stream tasks, and invoke every node's
`shutdown` (failures logged, not raised). -/
def engineStop (ns : List NodeSpec) (s : StopState) : StopState :=
  if !s.running then s
  else
    { running := false
      sentinels := s.sentinels ++
        (ns.map (fun n => n.streamingInputs.map (fun p => (n.id, p)))).flatten
      shutdownLog := s.shutdownLog ++ ns.map (fun n => n.id) }

/-- The initialization loop of `WorkflowEngine.start` (step 2): call
`initialize` on each node in declaration order; the first failure is
logged and re-raised.  Returns the ids successfully initialized and the
outcome. -/
def startInitPhase : List NodeSpec → List String × Except String Unit
  | [] => ([], Except.ok ())
  | n :: rest =>
    match n.initResult with
    | Except.ok _ =>
      let r := startInitPhase rest
      (n.id :: r.1, r.2)
    | Except.error e => ([], Except.error e)

/-- The observable outcome of `WorkflowEngine.start` relevant to
initialization failures: the result (the re-raised exception, if any),
which nodes were initialized, which `shutdown` calls `start` itself
made, and the `_running` flag afterwards. -/
structure StartOutcome where
  result : Except String Unit
  initialized : List String
  shutdownCalls : List String
  runningAfter : Bool

/-- `WorkflowEngine.start`, restricted to its initialization phase:
`_running` is set to `True` before the `try` block and is not reset on
failure; the failure handler only logs and re-raises, and no `shutdown`
is invoked anywhere in `start` (streaming tasks, step 3, are only
spawned after every `initialize` has succeeded). -/
def engineStart (ns : List NodeSpec) : StartOutcome :=
  let r := startInitPhase ns
  { result := r.2
    initialized := r.1
    shutdownCalls := []
    runningAfter := true }

/-- A non-streaming output parameter of a node, with its current
`value` (`PValue.none` embeds Python `None`, the initial state). -/
structure OutPort where
  name : String
  is_streaming : Bool
  value : PValue
deriving DecidableEq

/-- The non-streaming target parameter slots, one `value` per port. -/
abbrev Slots := PortKey → PValue

/-- The loop body of `ConnectionManager.transfer_value` for one
connection: an external connection dispatches its callback as a
fire-and-forget task (no slot changes); an internal non-streaming
connection with a `target_param_ref` assigns the value directly to the
target parameter's `value` attribute — no validation is performed. -/
def transferDeliver (v : PValue) (sl : Slots) (conn : WiredConn) : Slots :=
  if conn.is_external then sl
  else if !conn.is_streaming && conn.has_target_ref then
    fun t => if t = conn.target then v else sl t
  else sl

/-- `ConnectionManager.transfer_value`: look up the connections
outgoing from the source port and deliver the value to each in turn. -/
def transferValue (conns : List WiredConn) (src : PortKey) (v : PValue) (sl : Slots) :
    Slots :=
  (conns.filter (fun conn => conn.source == src)).foldl (transferDeliver v) sl

/-- Does this connection assign values from `src` into the slot of
target port `t`?  (Internal, non-streaming, target reference set.) -/
def assignsTo (src t : PortKey) (conn : WiredConn) : Bool :=
  conn.source == src &&
    ((!conn.is_external && (!conn.is_streaming && conn.has_target_ref)) &&
      conn.target == t)

/-- The loop body of `WorkflowEngine._transfer_non_streaming_outputs`
for one output parameter: when it is non-streaming and its value is not
`None`, transfer the value through the connection manager; otherwise
leave the slots alone. -/
def transferOutputStep (conns : List WiredConn) (nodeId : String) (sl : Slots)
    (p : OutPort) : Slots :=
  if !p.is_streaming && p.value != PValue.none then
    transferValue conns (nodeId, p.name) p.value sl
  else sl

/-- `WorkflowEngine._transfer_non_streaming_outputs`: run the loop body
over the node's output parameters in declaration order. -/
def transferNonStreamingOutputs (conns : List WiredConn) (nodeId : String)
    (outputs : List OutPort) (sl : Slots) : Slots :=
  outputs.foldl (transferOutputStep conns nodeId) sl

/-- Python `str.strip` whitespace (ASCII whitespace; the verified
properties only strip ASCII text). -/
def pyIsSpace (c : Char) : Bool :=
  c = ' ' || c = '\t' || c = '\n' || c = '\r' || c = '\x0b' || c = '\x0c'

/-- Python `s.strip()`: drop whitespace from both ends. -/
def pyStrip (s : String) : String :=
  String.mk (((s.toList.dropWhile pyIsSpace).reverse.dropWhile pyIsSpace).reverse)

/-- Python `s.lower()` (ASCII case folding, which covers the literals
`true`, `false`, `null`, `none` the resolver compares against). -/
def pyLower (s : String) : String :=
  String.mk (s.toList.map Char.toLower)

/-- Python `s.isdigit()`: non-empty and all digits (restricted to ASCII
digits here). -/
def pyIsdigit (s : String) : Bool :=
  !s.toList.isEmpty && s.toList.all Char.isDigit

/-- Python `s.replace('.', '', 1)` on the character list: remove the
first `'.'`, if any. -/
def removeFirstDot : List Char → List Char
  | [] => []
  | c :: rest => if c = '.' then rest else c :: removeFirstDot rest

/-- Python `s.replace('.', '', 1)`. -/
def pyRemoveFirstDot (s : String) : String :=
  String.mk (removeFirstDot s.toList)

/-- Python `int(s)` on an all-digit string. -/
def digitsToNat (s : String) : Nat :=
  s.toList.foldl (fun a c => 10 * a + (c.toNat - 48)) 0

/-- The literal-reparsing step of `Node._resolve_value` applied to a
rendered template result: strip, then try `true` / `false` / `null` /
`none` (case-insensitively), then `int` on an all-digit string, then
`float` on a string whose first `'.'` removed leaves only digits;
otherwise keep the (stripped) string. -/
def convertRendered (rendered : String) : PValue :=
  let r := pyStrip rendered
  if pyLower r == "true" then PValue.bool true
  else if pyLower r == "false" then PValue.bool false
  else if pyLower r == "null" || pyLower r == "none" then PValue.none
  else if pyIsdigit r then PValue.int (Int.ofNat (digitsToNat r))
  else if pyIsdigit (pyRemoveFirstDot r) then PValue.float r
  else PValue.str r

/-- Python `pat in s` on character lists (substring test). -/
def containsSeq (pat : List Char) : List Char → Bool
  | [] => pat.isEmpty
  | c :: rest => pat.isPrefixOf (c :: rest) || containsSeq pat rest

/-- The marker test used by both `Node._resolve_value` and
`WorkflowEngine.render_template`: the string contains an expression,
statement or comment opener of the template language. -/
def hasTemplateMarkers (s : String) : Bool :=
  containsSeq "\x7b\x7b".toList s.toList || containsSeq "\x7b%".toList s.toList ||
    containsSeq "\x7b#".toList s.toList

/-- The string branch of `Node._resolve_value`: a string containing
template markers is rendered (through the engine, abstracted as the
function `render`) and then reparsed by the literal-conversion step; a
marker-free string is returned unchanged. -/
def resolveStringLeaf (render : String → String) (s : String) : PValue :=
  if hasTemplateMarkers s then convertRendered (render s) else PValue.str s

/-- The iteration loop of `WorkflowEngine.render_template`, with
`fuel` remaining iterations: return when the current text has no
template markers, otherwise render once (one Jinja2 pass, abstracted as
`step`); return at a fixpoint, else continue with the new text.  With
fuel exhausted the last rendered text is returned (after a warning when
markers remain). -/
def renderIter (step : String → String) : Nat → String → String
  | 0, cur => cur
  | Nat.succ k, cur =>
    if !hasTemplateMarkers cur then cur
    else
      let r := step cur
      if r == cur then r
      else renderIter step k r

/-- `max_iterations` in `WorkflowEngine.render_template`. -/
def maxIterations : Nat := 10

/-- `WorkflowEngine.render_template` for a fixed variable environment
(one Jinja2 pass over the current text is the function `step`). -/
def renderTemplate (step : String → String) (s : String) : String :=
  renderIter step maxIterations s

/-- A non-streaming integer schema used by concrete instances. -/
def intSchema : ParameterSchema :=
  { is_streaming := false, schema := PValue.str "integer", description := "" }

/-- A streaming integer schema used by concrete instances. -/
def streamIntSchema : ParameterSchema :=
  { is_streaming := true, schema := PValue.str "integer", description := "" }

/-- A wired streaming connection `("s","out") → ("a","inp")`. -/
def connSA : WiredConn :=
  { source := ("s", "out"), target := ("a", "inp")
    source_schema := streamIntSchema, target_schema := streamIntSchema
    is_streaming := true, is_external := false
    has_target_queue := true, has_target_ref := false }

/-- A wired streaming connection `("s","out") → ("b","inp")` (fan-out
sibling of `connSA`). -/
def connSB : WiredConn :=
  { source := ("s", "out"), target := ("b", "inp")
    source_schema := streamIntSchema, target_schema := streamIntSchema
    is_streaming := true, is_external := false
    has_target_queue := true, has_target_ref := false }

/-- A wired non-streaming value connection `("n","out") → ("m","inp")`
whose target schema is `string`, used to exhibit an un-revalidated
transfer. -/
def connNM : WiredConn :=
  { source := ("n", "out"), target := ("m", "inp")
    source_schema := intSchema
    target_schema := { is_streaming := false, schema := PValue.str "string", description := "" }
    is_streaming := false, is_external := false
    has_target_queue := false, has_target_ref := true }

/-- A sequential node whose hooks all succeed. -/
def nodeX : NodeSpec :=
  { id := "X", mode := ExecMode.sequential
    initResult := Except.ok (), execResult := Except.ok (), streamingInputs := [] }

/-- A sequential node whose `execute` raises `boom`. -/
def nodeY : NodeSpec :=
  { id := "Y", mode := ExecMode.sequential
    initResult := Except.ok (), execResult := Except.error "boom", streamingInputs := [] }

/-- A sequential node after `nodeY` whose hooks all succeed. -/
def nodeZ : NodeSpec :=
  { id := "Z", mode := ExecMode.sequential
    initResult := Except.ok (), execResult := Except.ok (), streamingInputs := [] }

/-- A streaming node with one streaming input port. -/
def nodeS : NodeSpec :=
  { id := "S", mode := ExecMode.streaming
    initResult := Except.ok (), execResult := Except.ok (), streamingInputs := ["inp"] }

/-- A node whose `initialize` raises `crash`. -/
def nodeB : NodeSpec :=
  { id := "B", mode := ExecMode.sequential
    initResult := Except.error "crash", execResult := Except.ok (), streamingInputs := [] }

/-- A non-streaming output port holding `None`. -/
def portNone : OutPort :=
  { name := "out", is_streaming := false, value := PValue.none }

/-- A non-streaming output port holding the integer 5 (which does not
validate against `connNM`'s `string` target schema). -/
def portIntFive : OutPort :=
  { name := "out", is_streaming := false, value := PValue.int 5 }

theorem decEq10_refl (x : Int × Int) : decEq10 x x = true := by
  unfold decEq10
  rw [if_pos (le_refl x.2)]
  simp

theorem pyDepth_pos (a : PValue) : 1 ≤ pyDepth a := by
  cases a <;> unfold pyDepth <;> omega

theorem pyDepthList_le (xs : List PValue) (v : PValue) (hv : v ∈ xs) :
    pyDepth v ≤ pyDepthList xs := by
  induction xs with
  | nil => cases hv
  | cons x rest ih =>
    rcases List.mem_cons.mp hv with rfl | h
    · unfold pyDepthList
      exact le_max_left _ _
    · unfold pyDepthList
      exact le_trans (ih h) (le_max_right _ _)

theorem pyDepthFields_le (xs : List (String × PValue)) (p : String × PValue)
    (hp : p ∈ xs) : pyDepth p.2 ≤ pyDepthFields xs := by
  induction xs with
  | nil => cases hp
  | cons q rest ih =>
    rcases List.mem_cons.mp hp with rfl | h
    · unfold pyDepthFields
      exact le_max_left _ _
    · unfold pyDepthFields
      exact le_trans (ih h) (le_max_right _ _)

theorem zip_self_eq_map (xs : List PValue) :
    List.zip xs xs = xs.map (fun v => (v, v)) := by
  induction xs with
  | nil => rfl
  | cons x rest ih => simp [ih]

theorem dictContains_of_mem (xs : List (String × PValue)) (p : String × PValue)
    (hp : p ∈ xs) : dictContains xs p.1 = true := by
  unfold dictContains
  exact List.any_eq_true.mpr ⟨p, hp, by simp⟩

theorem dictGet_mem (xs : List (String × PValue)) (k : String)
    (h : dictContains xs k = true) :
    ∃ q ∈ xs, dictGet xs k = q.2 := by
  unfold dictContains at h
  obtain ⟨p, hp, hk⟩ := List.any_eq_true.mp h
  have hsome : (xs.find? (fun r => r.1 == k)).isSome := by
    rw [List.find?_isSome]
    exact ⟨p, hp, hk⟩
  obtain ⟨q, hq⟩ := Option.isSome_iff_exists.mp hsome
  refine ⟨q, List.mem_of_find?_eq_some hq, ?_⟩
  unfold dictGet
  rw [hq]

theorem pyEqFuel_refl : ∀ (fuel : Nat) (a : PValue), pyDepth a ≤ fuel →
    pyEqFuel fuel a a = true := by
  intro fuel
  induction fuel with
  | zero =>
    intro a h
    have := pyDepth_pos a
    omega
  | succ fuel ih =>
    intro a h
    cases a with
    | none => rfl
    | bool b => simp [pyEqFuel, numVal, decEq10_refl]
    | int n => simp [pyEqFuel, numVal, decEq10_refl]
    | float lit =>
      cases hp : parseFloatPair lit with
      | some q => simp [pyEqFuel, numVal, hp, decEq10_refl]
      | none => simp [pyEqFuel, numVal, hp]
    | str s => simp [pyEqFuel, numVal]
    | bytes bs => simp [pyEqFuel, numVal]
    | list xs =>
      have hd : pyDepthList xs ≤ fuel := by
        have hdepth : pyDepth (PValue.list xs) = pyDepthList xs + 1 := rfl
        omega
      have hstep : pyEqFuel (fuel + 1) (PValue.list xs) (PValue.list xs) =
          (xs.length == xs.length &&
            (List.zip xs xs).all (fun p => pyEqFuel fuel p.1 p.2)) := rfl
      rw [hstep, zip_self_eq_map]
      simp only [beq_self_eq_true, Bool.true_and]
      rw [List.all_eq_true]
      intro p hp
      obtain ⟨v, hv, rfl⟩ := List.mem_map.mp hp
      exact ih v (le_trans (pyDepthList_le xs v hv) hd)
    | dict xs =>
      have hd : pyDepthFields xs ≤ fuel := by
        have hdepth : pyDepth (PValue.dict xs) = pyDepthFields xs + 1 := rfl
        omega
      simp only [pyEqFuel, numVal, Bool.and_eq_true]
      refine ⟨⟨?_, ?_⟩, ?_⟩ <;> rw [List.all_eq_true]
      · exact fun p hp => dictContains_of_mem xs p hp
      · exact fun p hp => dictContains_of_mem xs p hp
      · intro p hp
        obtain ⟨q, hq, hget⟩ := dictGet_mem xs p.1 (dictContains_of_mem xs p hp)
        rw [hget]
        exact ih q.2 (le_trans (pyDepthFields_le xs q hq) hd)

theorem pyEq_refl (a : PValue) : pyEq a a = true :=
  pyEqFuel_refl (pyDepth a) a (le_refl _)

theorem matches_iff (a b : ParameterSchema) :
    a.matches b = true ↔
      (a.is_streaming = b.is_streaming ∧ pyEq a.schema b.schema = true) := by
  simp [ParameterSchema.matches]

theorem make_ok_iff (sn sp tn tp : String) (ss ts : ParameterSchema) :
    (∃ c, Connection.make sn sp tn tp ss ts = Except.ok c) ↔ ss.matches ts = true := by
  constructor
  · rintro ⟨c, hc⟩
    by_contra h
    simp [Connection.make, h] at hc
  · intro h
    exact ⟨{ source := (sn, sp), target := (tn, tp), source_schema := ss,
             target_schema := ts, is_streaming := ss.is_streaming, is_external := false },
           by simp [Connection.make, h]⟩

theorem applyOp_schemas (m : ConnectionManager) (op : MgrOp)
    (hm : ∀ c ∈ m.connections, c.source_schema.matches c.target_schema = true) :
    ∀ c ∈ (m.applyOp op).connections, c.source_schema.matches c.target_schema = true := by
  intro c hc
  cases op with
  | internal sn sp tn tp ss ts =>
    by_cases h : ss.matches ts = true
    · simp only [ConnectionManager.applyOp, Connection.make, h, if_pos] at hc
      rcases List.mem_append.mp hc with h1 | h2
      · exact hm c h1
      · simp at h2
        subst h2
        exact h
    · simp only [ConnectionManager.applyOp, Connection.make, h, if_neg] at hc
      simp at hc
      exact hm c hc
  | external sn sp ss =>
    have hrefl : ss.matches ss = true :=
      (matches_iff ss ss).mpr ⟨rfl, pyEq_refl ss.schema⟩
    simp only [ConnectionManager.applyOp, Connection.make, hrefl, if_pos] at hc
    rcases List.mem_append.mp hc with h1 | h2
    · exact hm c h1
    · simp at h2
      subst h2
      exact hrefl

/-- Claim C1: constructing a `Connection` succeeds iff the source
schema is structurally equal to the target schema, meaning the
`is_streaming` flags agree and the shapes are deeply equal under Python
`==` (`pyEq`: dicts as finite maps regardless of insertion order,
numbers by value); otherwise construction raises `ConfigurationError`
naming both endpoints; consequently every connection held by a
`ConnectionManager` built from any sequence of internal or external add
operations has structurally equal endpoint schemas. -/
theorem connection_requires_matching_schemas :
    (∀ sn sp tn tp (ss ts : ParameterSchema),
      ((∃ c, Connection.make sn sp tn tp ss ts = Except.ok c) ↔
        (ss.is_streaming = ts.is_streaming ∧ pyEq ss.schema ts.schema = true)) ∧
      (¬ (ss.is_streaming = ts.is_streaming ∧ pyEq ss.schema ts.schema = true) →
        Connection.make sn sp tn tp ss ts =
          Except.error ⟨(sn, sp), (tn, tp), ss, ts⟩)) ∧
    (∀ ops, ∀ c ∈ (ConnectionManager.build ops).connections,
      c.source_schema.is_streaming = c.target_schema.is_streaming ∧
      pyEq c.source_schema.schema c.target_schema.schema = true) := by
  constructor
  · intro sn sp tn tp ss ts
    constructor
    · rw [make_ok_iff, matches_iff]
    · intro h
      have h' : ¬ ss.matches ts = true := fun hm => h ((matches_iff ss ts).mp hm)
      simp [Connection.make, h']
  · intro ops
    have key : ∀ (ops : List MgrOp) (m : ConnectionManager),
        (∀ c ∈ m.connections, c.source_schema.matches c.target_schema = true) →
        ∀ c ∈ (ops.foldl ConnectionManager.applyOp m).connections,
          c.source_schema.matches c.target_schema = true := by
      intro ops
      induction ops with
      | nil => intro m hm; simpa using hm
      | cons op rest ih =>
        intro m hm
        exact ih (m.applyOp op) (applyOp_schemas m op hm)
    intro c hc
    exact (matches_iff _ _).mp (key ops { connections := [] } (by simp) c hc)

theorem connection_matching_witness :
    (∃ c, Connection.make "vad" "audio" "asr" "audio" sampleSchema sampleSchema =
      Except.ok c) ∧
    (∃ c, Connection.make "vad" "audio" "asr" "audio" sampleSchema
      sampleSchemaPermuted = Except.ok c) ∧
    (∃ c, Connection.make "a" "x" "b" "x" sampleSchemaDetailed
      sampleSchemaDetailedInt = Except.ok c) ∧
    Connection.make "vad" "audio" "asr" "audio" sampleSchema sampleSchemaMismatch =
      Except.error ⟨("vad", "audio"), ("asr", "audio"), sampleSchema, sampleSchemaMismatch⟩ ∧
    (∀ c ∈ (ConnectionManager.build
        [MgrOp.external "vad" "audio" sampleSchema]).connections,
      c.source_schema.is_streaming = c.target_schema.is_streaming ∧
      pyEq c.source_schema.schema c.target_schema.schema = true) := by
  refine ⟨?_, ?_, ?_, ?_, ?_⟩
  · exact ((connection_requires_matching_schemas.1 "vad" "audio" "asr" "audio"
      sampleSchema sampleSchema).1).mpr ⟨rfl, by decide⟩
  · exact ((connection_requires_matching_schemas.1 "vad" "audio" "asr" "audio"
      sampleSchema sampleSchemaPermuted).1).mpr ⟨rfl, by decide⟩
  · exact ((connection_requires_matching_schemas.1 "a" "x" "b" "x"
      sampleSchemaDetailed sampleSchemaDetailedInt).1).mpr ⟨rfl, by decide⟩
  · exact (connection_requires_matching_schemas.1 "vad" "audio" "asr" "audio"
      sampleSchema sampleSchemaMismatch).2 (by decide)
  · exact connection_requires_matching_schemas.2
      [MgrOp.external "vad" "audio" sampleSchema]

theorem routeDeliver_at (c : PValue) (qs : Queues) (conn : WiredConn) (t : PortKey) :
    routeDeliver c qs conn t =
      (if (!conn.is_external && (conn.is_streaming && conn.has_target_queue)) &&
          conn.target == t
       then qs t ++ [c] else qs t) := by
  unfold routeDeliver
  by_cases he : conn.is_external = true
  · simp [he]
  · by_cases hs : conn.is_streaming = true
    · by_cases hq : conn.has_target_queue = true
      · by_cases ht : conn.target = t
        · subst ht; simp [he, hs, hq]
        · have h1 : (conn.target == t) = false := beq_eq_false_iff_ne.mpr ht
          have h2 : ¬ (t = conn.target) := fun h => ht h.symm
          simp [he, hs, hq, h1, h2]
      · simp [he, hs, hq]
    · simp [he, hs]

theorem foldl_routeDeliver (c : PValue) (t : PortKey) :
    ∀ (l : List WiredConn) (qs : Queues),
      (l.foldl (routeDeliver c) qs) t =
        qs t ++ List.replicate
          (l.countP (fun conn =>
            (!conn.is_external && (conn.is_streaming && conn.has_target_queue)) &&
              conn.target == t)) c := by
  intro l
  induction l with
  | nil => intro qs; simp
  | cons conn rest ih =>
    intro qs
    rw [List.foldl_cons, ih, List.countP_cons]
    by_cases h : ((!conn.is_external && (conn.is_streaming && conn.has_target_queue)) &&
        conn.target == t) = true
    · rw [routeDeliver_at, if_pos h]
      simp [h, List.replicate_succ, List.append_assoc]
    · rw [routeDeliver_at, if_neg h]
      simp [h]

theorem routeChunk_at (conns : List WiredConn) (src : PortKey) (c : PValue)
    (qs : Queues) (t : PortKey) :
    routeChunk conns src c qs t =
      qs t ++ List.replicate (conns.countP (deliversTo src t)) c := by
  unfold routeChunk
  rw [foldl_routeDeliver, List.countP_filter]
  rfl

theorem emitSeq_ordered (conns : List WiredConn)
    (outputs : List (String × ParameterSchema)) (nodeId paramName : String)
    (schema : ParameterSchema) (t : PortKey)
    (hout : outputs.find? (fun p => p.1 == paramName) = some (paramName, schema))
    (hstream : schema.is_streaming = true)
    (hone : conns.countP (deliversTo (nodeId, paramName) t) = 1) :
    ∀ (cs : List PValue) (qs : Queues),
      (∀ c ∈ cs, (schema.validateValue c).isOk = true) →
      ∃ qs1, emitSeq conns outputs nodeId paramName cs qs = Except.ok qs1 ∧
        qs1 t = qs t ++ cs := by
  intro cs
  induction cs with
  | nil => intro qs _; exact ⟨qs, rfl, by simp⟩
  | cons c rest ih =>
    intro qs hvalid
    have hc : (schema.validateValue c).isOk = true := hvalid c (by simp)
    obtain ⟨u, hu⟩ : ∃ u, schema.validateValue c = Except.ok u := by
      cases h : schema.validateValue c with
      | ok u => exact ⟨u, rfl⟩
      | error e => rw [h] at hc; simp [Except.isOk, Except.toBool] at hc
    have hemit : emitChunk conns outputs nodeId paramName c qs =
        Except.ok (routeChunk conns (nodeId, paramName) c qs) := by
      simp [emitChunk, hout, hstream, StreamChunk.make, hu]
    obtain ⟨qs1, h1, h2⟩ :=
      ih (routeChunk conns (nodeId, paramName) c qs) (fun x hx => hvalid x (by simp [hx]))
    refine ⟨qs1, ?_, ?_⟩
    · simp only [emitSeq, hemit]
      exact h1
    · rw [h2, routeChunk_at, hone]
      simp

/-- Claim C2: for every source port and every sequence of chunks
`c₁,…,cₙ` successfully emitted on it, each internal streaming target
connected (once) to that port receives exactly `c₁,…,cₙ` on its
(initially empty) queue in emission order; with fan-out, every such
target independently receives the full sequence in order. -/
theorem stream_fanout_preserves_order (conns : List WiredConn)
    (outputs : List (String × ParameterSchema)) (nodeId paramName : String)
    (schema : ParameterSchema) (cs : List PValue) (qs : Queues) (t : PortKey)
    (hout : outputs.find? (fun p => p.1 == paramName) = some (paramName, schema))
    (hstream : schema.is_streaming = true)
    (hvalid : ∀ c ∈ cs, (schema.validateValue c).isOk = true)
    (hone : conns.countP (deliversTo (nodeId, paramName) t) = 1)
    (hq0 : qs t = []) :
    ∃ qs1, emitSeq conns outputs nodeId paramName cs qs = Except.ok qs1 ∧
      qs1 t = cs := by
  obtain ⟨qs1, h1, h2⟩ :=
    emitSeq_ordered conns outputs nodeId paramName schema t hout hstream hone cs qs hvalid
  exact ⟨qs1, h1, by rw [h2, hq0, List.nil_append]⟩

theorem stream_fanout_witness :
    (∃ qs1,
      emitSeq [connSA, connSB] [("out", streamIntSchema)] "s" "out"
        [PValue.int 1, PValue.int 2, PValue.int 3] (fun _ => []) = Except.ok qs1 ∧
      qs1 ("a", "inp") = [PValue.int 1, PValue.int 2, PValue.int 3]) ∧
    (∃ qs1,
      emitSeq [connSA, connSB] [("out", streamIntSchema)] "s" "out"
        [PValue.int 1, PValue.int 2, PValue.int 3] (fun _ => []) = Except.ok qs1 ∧
      qs1 ("b", "inp") = [PValue.int 1, PValue.int 2, PValue.int 3]) := by
  constructor
  · exact stream_fanout_preserves_order [connSA, connSB] [("out", streamIntSchema)]
      "s" "out" streamIntSchema [PValue.int 1, PValue.int 2, PValue.int 3]
      (fun _ => []) ("a", "inp") rfl rfl (by decide) (by decide) rfl
  · exact stream_fanout_preserves_order [connSA, connSB] [("out", streamIntSchema)]
      "s" "out" streamIntSchema [PValue.int 1, PValue.int 2, PValue.int 3]
      (fun _ => []) ("b", "inp") rfl rfl (by decide) (by decide) rfl

theorem executePhase_all_ids (l : List NodeSpec) :
    (executePhase true l).1 = l.map (fun n => n.id) := by
  induction l with
  | nil => rfl
  | cons n rest ih =>
    cases h : n.execResult with
    | ok u => cases u; simp [executePhase, execAsync, h, ih]
    | error e => simp [executePhase, execAsync, h, ih]

theorem executePhase_ok_ids (coe : Bool) (l : List NodeSpec)
    (h : ∀ n ∈ l, n.execResult = Except.ok ()) :
    (executePhase coe l).1 = l.map (fun n => n.id) := by
  induction l with
  | nil => rfl
  | cons n rest ih =>
    have hn : n.execResult = Except.ok () := h n (by simp)
    simp [executePhase, execAsync, hn, ih (fun m hm => h m (by simp [hm]))]

theorem executePhase_abort (pre post : List NodeSpec) (f : NodeSpec) (e : String)
    (hpre : ∀ n ∈ pre, n.execResult = Except.ok ())
    (hf : f.execResult = Except.error e) :
    executePhase false (pre ++ f :: post) =
      (pre.map (fun n => n.id) ++ [f.id],
        Except.error { node_id := f.id, original_error := e }) := by
  induction pre with
  | nil => simp [executePhase, execAsync, hf]
  | cons n rest ih =>
    have hn : n.execResult = Except.ok () := hpre n (by simp)
    simp [executePhase, execAsync, hn, ih (fun m hm => hpre m (by simp [hm]))]

/-- Claim C3: with `continue_on_error` unset, the first sequential or
hybrid node whose `execute` raises makes `engine.execute` re-raise a
`NodeExecutionError` carrying that node's id and the original error,
and no later sequential/hybrid node is invoked (the invocation trace is
exactly the successful prefix plus the failing node); with
`continue_on_error` set, every sequential/hybrid node is still
attempted. -/
theorem execute_error_policy (ns pre post : List NodeSpec) (f : NodeSpec) (e : String)
    (hsplit : seqNodes ns = pre ++ f :: post)
    (hpre : ∀ n ∈ pre, n.execResult = Except.ok ())
    (hf : f.execResult = Except.error e) :
    engineExecute false ns =
      (pre.map (fun n => n.id) ++ [f.id],
        Except.error { node_id := f.id, original_error := e }) ∧
    (engineExecute true ns).1 = (seqNodes ns).map (fun n => n.id) := by
  constructor
  · unfold engineExecute
    rw [hsplit]
    exact executePhase_abort pre post f e hpre hf
  · exact executePhase_all_ids (seqNodes ns)

theorem execute_error_policy_witness :
    engineExecute false [nodeX, nodeY, nodeZ] =
      (["X", "Y"], Except.error { node_id := "Y", original_error := "boom" }) ∧
    (engineExecute true [nodeX, nodeY, nodeZ]).1 = ["X", "Y", "Z"] := by
  have h := execute_error_policy [nodeX, nodeY, nodeZ] [nodeX] [nodeZ] nodeY "boom"
    rfl (by intro n hn; simp at hn; subst hn; rfl) rfl
  exact ⟨h.1, h.2⟩

theorem count_map_filter (p : NodeSpec → Bool) :
    ∀ (ns : List NodeSpec), (ns.map (fun n => n.id)).Nodup → ∀ n ∈ ns,
      ((ns.filter p).map (fun n => n.id)).count n.id = if p n then 1 else 0 := by
  intro ns
  induction ns with
  | nil => intro _ n hn; cases hn
  | cons m rest ih =>
    intro hnd n hn
    have hnd' : (rest.map (fun n => n.id)).Nodup := (List.nodup_cons.mp (by simpa using hnd)).2
    have hmid : m.id ∉ rest.map (fun n => n.id) := (List.nodup_cons.mp (by simpa using hnd)).1
    rcases List.mem_cons.mp hn with rfl | hn'
    · have hzero : ((rest.filter p).map (fun n => n.id)).count n.id = 0 := by
        apply List.count_eq_zero_of_not_mem
        intro hmem
        exact hmid (((rest.filter_sublist).map (fun n => n.id)).subset hmem)
      by_cases hp : p n
      · simp [List.filter_cons, hp, List.count_cons, hzero]
      · simp [List.filter_cons, hp, hzero]
    · have hne : n.id ≠ m.id := by
        intro h
        exact hmid (h ▸ List.mem_map.mpr ⟨n, hn', rfl⟩)
      by_cases hp : p m
      · simp [List.filter_cons, hp, List.count_cons, hne, ih hnd' n hn']
      · simp [List.filter_cons, hp, ih hnd' n hn']

theorem execute_abort_skips_later_node :
    nodeZ.mode ≠ ExecMode.streaming ∧
    (engineExecute false [nodeY, nodeZ]).1 = ["Y"] ∧
    (engineExecute false [nodeY, nodeZ]).1.count nodeZ.id = 0 := by
  refine ⟨by decide, rfl, rfl⟩

/-- Claim C4 as amended: in a call of `engine.execute` in which no
sequential/hybrid node's `execute` raises — or with `continue_on_error`
set — each sequential and hybrid node's `execute` is invoked exactly
once, strictly in declaration order, and streaming nodes are never
invoked in this phase.  (As originally stated the claim fails: when
`continue_on_error` is unset and a node raises, the later
sequential/hybrid nodes are not invoked at all.) -/
theorem execute_invokes_each_seq_node_once (ns : List NodeSpec) (coe : Bool)
    (hnd : (ns.map (fun n => n.id)).Nodup)
    (hok : coe = true ∨ ∀ n ∈ seqNodes ns, n.execResult = Except.ok ()) :
    (engineExecute coe ns).1 = (seqNodes ns).map (fun n => n.id) ∧
    (∀ n ∈ ns, n.mode ≠ ExecMode.streaming →
      (engineExecute coe ns).1.count n.id = 1) ∧
    (∀ n ∈ ns, n.mode = ExecMode.streaming →
      (engineExecute coe ns).1.count n.id = 0) := by
  have htrace : (engineExecute coe ns).1 = (seqNodes ns).map (fun n => n.id) := by
    rcases hok with rfl | hok
    · exact executePhase_all_ids (seqNodes ns)
    · exact executePhase_ok_ids coe (seqNodes ns) hok
  refine ⟨htrace, ?_, ?_⟩
  · intro n hn hmode
    rw [htrace]
    have h := count_map_filter (fun n => n.mode != ExecMode.streaming) ns hnd n hn
    unfold seqNodes
    rw [h]
    simp [hmode]
  · intro n hn hmode
    rw [htrace]
    have h := count_map_filter (fun n => n.mode != ExecMode.streaming) ns hnd n hn
    unfold seqNodes
    rw [h]
    simp [hmode]

theorem execute_invokes_once_witness :
    (engineExecute true [nodeX, nodeS]).1 = ["X"] ∧
    (engineExecute true [nodeX, nodeS]).1.count "X" = 1 ∧
    (engineExecute true [nodeX, nodeS]).1.count "S" = 0 := by
  have h := execute_invokes_each_seq_node_once [nodeX, nodeS] true (by decide) (Or.inl rfl)
  exact ⟨h.1, h.2.1 nodeX (by simp) (by decide), h.2.2 nodeS (by simp) rfl⟩

/-- Claim C5: calling `engine.stop` twice from the started state leaves
the engine not running, invokes each node's `shutdown` exactly once in
total, and the second call changes nothing. -/
theorem stop_idempotent (ns : List NodeSpec) (s : StopState)
    (hrun : s.running = true) (hlog : s.shutdownLog = [])
    (hnd : (ns.map (fun n => n.id)).Nodup) :
    (engineStop ns (engineStop ns s)).running = false ∧
    (engineStop ns (engineStop ns s)).shutdownLog = ns.map (fun n => n.id) ∧
    (∀ n ∈ ns, (engineStop ns (engineStop ns s)).shutdownLog.count n.id = 1) ∧
    engineStop ns (engineStop ns s) = engineStop ns s := by
  have hstop : engineStop ns s =
      { running := false
        sentinels := s.sentinels ++
          (ns.map (fun n => n.streamingInputs.map (fun p => (n.id, p)))).flatten
        shutdownLog := ns.map (fun n => n.id) } := by
    unfold engineStop
    simp [hrun, hlog]
  have hstop2 : engineStop ns (engineStop ns s) = engineStop ns s := by
    rw [hstop]
    unfold engineStop
    simp
  refine ⟨?_, ?_, ?_, hstop2⟩
  · rw [hstop2, hstop]
  · rw [hstop2, hstop]
  · intro n hn
    rw [hstop2, hstop]
    exact List.count_eq_one_of_mem hnd (List.mem_map.mpr ⟨n, hn, rfl⟩)

theorem stop_idempotent_witness :
    (engineStop [nodeX, nodeS] (engineStop [nodeX, nodeS] ⟨true, [], []⟩)).running = false ∧
    (engineStop [nodeX, nodeS] (engineStop [nodeX, nodeS] ⟨true, [], []⟩)).shutdownLog =
      ["X", "S"] ∧
    (engineStop [nodeX, nodeS] (engineStop [nodeX, nodeS] ⟨true, [], []⟩)).shutdownLog.count
      "X" = 1 := by
  have h := stop_idempotent [nodeX, nodeS] ⟨true, [], []⟩ rfl rfl (by decide)
  exact ⟨h.1, h.2.1, h.2.2.1 nodeX (by simp)⟩

theorem startInitPhase_split (post : List NodeSpec) (f : NodeSpec) (e : String)
    (hf : f.initResult = Except.error e) :
    ∀ pre, (∀ n ∈ pre, n.initResult = Except.ok ()) →
      startInitPhase (pre ++ f :: post) =
        (pre.map (fun n => n.id), Except.error e) := by
  intro pre
  induction pre with
  | nil => intro _; simp [startInitPhase, hf]
  | cons n rest ih =>
    intro h
    have hn : n.initResult = Except.ok () := h n (by simp)
    simp [startInitPhase, hn, ih (fun m hm => h m (by simp [hm]))]

theorem start_failure_no_shutdown_counterexample :
    (engineStart [nodeX, nodeB]).result = Except.error "crash" ∧
    (engineStart [nodeX, nodeB]).initialized = ["X"] ∧
    (engineStart [nodeX, nodeB]).shutdownCalls = [] ∧
    (engineStart [nodeX, nodeB]).runningAfter = true :=
  ⟨rfl, rfl, rfl, rfl⟩

/-- Claim C6 as amended: if some node's `initialize` raises during
`engine.start`, `start` aborts by re-raising the error; the nodes
initialized before the failing one are exactly the preceding ones, but
`start` itself invokes no `shutdown` at all, and the engine remains
marked running (already-initialized nodes are only shut down by a
subsequent `stop`).  (As originally stated the claim fails: the failure
handler in `start` only logs and re-raises.) -/
theorem start_failure_aborts_without_shutdown (ns pre post : List NodeSpec)
    (f : NodeSpec) (e : String) (hsplit : ns = pre ++ f :: post)
    (hpre : ∀ n ∈ pre, n.initResult = Except.ok ())
    (hf : f.initResult = Except.error e) :
    (engineStart ns).result = Except.error e ∧
    (engineStart ns).initialized = pre.map (fun n => n.id) ∧
    (engineStart ns).shutdownCalls = [] ∧
    (engineStart ns).runningAfter = true := by
  subst hsplit
  refine ⟨?_, ?_, rfl, rfl⟩ <;>
    simp [engineStart, startInitPhase_split post f e hf pre hpre]

theorem start_failure_witness :
    (engineStart [nodeZ, nodeB, nodeX]).result = Except.error "crash" ∧
    (engineStart [nodeZ, nodeB, nodeX]).initialized = ["Z"] ∧
    (engineStart [nodeZ, nodeB, nodeX]).shutdownCalls = [] := by
  have h := start_failure_aborts_without_shutdown [nodeZ, nodeB, nodeX] [nodeZ] [nodeX]
    nodeB "crash" rfl (by intro n hn; simp at hn; subst hn; rfl) rfl
  exact ⟨h.1, h.2.1, h.2.2.1⟩

theorem dictContains_dictSet_self (d : List (String × PValue)) (k : String) (v : PValue) :
    dictContains (dictSet d k v) k = true := by
  induction d with
  | nil => simp [dictSet, dictContains]
  | cons p rest ih =>
    by_cases h : p.1 = k
    · simp [dictSet, dictContains, h]
    · have hb : (p.1 == k) = false := beq_eq_false_iff_ne.mpr h
      simp only [dictSet, hb, Bool.false_eq_true, if_false]
      simp only [dictContains, List.any_cons, hb, Bool.false_or]
      exact ih

theorem dictGet_dictSet_self (d : List (String × PValue)) (k : String) (v : PValue) :
    dictGet (dictSet d k v) k = v := by
  induction d with
  | nil => simp [dictSet, dictGet]
  | cons p rest ih =>
    by_cases h : p.1 = k
    · have hb : (p.1 == k) = true := beq_iff_eq.mpr h
      simp [dictSet, dictGet, hb]
    · have hb : (p.1 == k) = false := beq_eq_false_iff_ne.mpr h
      simp only [dictSet, hb, Bool.false_eq_true, if_false]
      simp only [dictGet, List.find?_cons, hb]
      exact ih

theorem dictContains_dictSet_ne (d : List (String × PValue)) (k : String) (v : PValue)
    (x : String) (hx : x ≠ k) :
    dictContains (dictSet d k v) x = dictContains d x := by
  induction d with
  | nil =>
    have hb : (k == x) = false := beq_eq_false_iff_ne.mpr (fun h => hx h.symm)
    simp [dictSet, dictContains, hb]
  | cons p rest ih =>
    by_cases h : p.1 = k
    · simp [dictSet, dictContains, h]
    · have hb : (p.1 == k) = false := beq_eq_false_iff_ne.mpr h
      simp only [dictSet, hb, Bool.false_eq_true, if_false]
      simp only [dictContains, List.any_cons] at ih ⊢
      rw [ih]

theorem dictGet_dictSet_ne (d : List (String × PValue)) (k : String) (v : PValue)
    (x : String) (hx : x ≠ k) :
    dictGet (dictSet d k v) x = dictGet d x := by
  induction d with
  | nil =>
    have hb : (k == x) = false := beq_eq_false_iff_ne.mpr (fun h => hx h.symm)
    simp [dictSet, dictGet, hb]
  | cons p rest ih =>
    by_cases h : p.1 = k
    · have hkx : (p.1 == x) = false := beq_eq_false_iff_ne.mpr (h ▸ fun hh => hx hh.symm)
      simp [dictSet, dictGet, beq_iff_eq.mpr h, hkx]
    · have hb : (p.1 == k) = false := beq_eq_false_iff_ne.mpr h
      simp only [dictSet, hb, Bool.false_eq_true, if_false]
      simp only [dictGet, List.find?_cons] at ih ⊢
      cases hpx : (p.1 == x) with
      | true => rfl
      | false => exact ih

theorem validateField_eq (d : List (String × PValue)) (name : String) (fd : PValue) :
    validateField d name fd =
      (match FieldSchema.parse fd with
       | Except.error e => Except.error e
       | Except.ok fs =>
         if dictContains d name = true then
           match fs.validateValue (dictGet d name) with
           | Except.error e => Except.error e
           | Except.ok _ => Except.ok d
         else if (fs.default != PValue.none) = true then
           match fs.validateValue fs.default with
           | Except.error e => Except.error e
           | Except.ok _ => Except.ok (dictSet d name fs.default)
         else if fs.isRequired = true then Except.error (VErr.missingField name)
         else Except.ok d) := by
  unfold validateField
  cases FieldSchema.parse fd with
  | error e => rfl
  | ok fs =>
    by_cases hc : dictContains d name = true
    · simp [hc]
    · have hc' : dictContains d name = false := by
        cases hcc : dictContains d name
        · rfl
        · exact absurd hcc hc
      by_cases hd : (fs.default != PValue.none) = true
      · simp [hc', hd, dictContains_dictSet_self, dictGet_dictSet_self]
      · have hd' : (fs.default != PValue.none) = false := by
          cases hdd : (fs.default != PValue.none)
          · rfl
          · exact absurd hdd hd
        by_cases hr : fs.isRequired = true
        · simp [hc', hd', hr]
        · have hr' : fs.isRequired = false := by
            cases hrr : fs.isRequired
            · rfl
            · exact absurd hrr hr
          simp [hc', hd', hr']

theorem validateField_eq_ok (d : List (String × PValue)) (name : String) (fd : PValue)
    (fs : FieldSchema) (hp : FieldSchema.parse fd = Except.ok fs) :
    validateField d name fd =
      (if dictContains d name = true then
         match fs.validateValue (dictGet d name) with
         | Except.error e => Except.error e
         | Except.ok _ => Except.ok d
       else if (fs.default != PValue.none) = true then
         match fs.validateValue fs.default with
         | Except.error e => Except.error e
         | Except.ok _ => Except.ok (dictSet d name fs.default)
       else if fs.isRequired = true then Except.error (VErr.missingField name)
       else Except.ok d) := by
  rw [validateField_eq, hp]

theorem validateField_preserves (d : List (String × PValue)) (name : String)
    (fd : PValue) (d1 : List (String × PValue))
    (h : validateField d name fd = Except.ok d1) (x : String) (hx : x ≠ name) :
    dictContains d1 x = dictContains d x ∧ dictGet d1 x = dictGet d x := by
  cases hp : FieldSchema.parse fd with
  | error e => rw [validateField_eq, hp] at h; exact absurd h (by simp)
  | ok fs =>
    rw [validateField_eq_ok d name fd fs hp] at h
    by_cases hc : dictContains d name = true
    · rw [if_pos hc] at h
      cases hv : fs.validateValue (dictGet d name) with
      | ok u => rw [hv] at h; simp at h; subst h; exact ⟨rfl, rfl⟩
      | error e => rw [hv] at h; exact absurd h (by simp)
    · rw [if_neg hc] at h
      by_cases hd : (fs.default != PValue.none) = true
      · rw [if_pos hd] at h
        cases hv : fs.validateValue fs.default with
        | ok u =>
          rw [hv] at h
          simp at h
          subst h
          exact ⟨dictContains_dictSet_ne d name fs.default x hx,
            dictGet_dictSet_ne d name fs.default x hx⟩
        | error e => rw [hv] at h; exact absurd h (by simp)
      · rw [if_neg hd] at h
        by_cases hr : fs.isRequired = true
        · rw [if_pos hr] at h; exact absurd h (by simp)
        · rw [if_neg hr] at h
          simp at h
          subst h
          exact ⟨rfl, rfl⟩

theorem validateField_default (d : List (String × PValue)) (name : String)
    (fd : PValue) (fs : FieldSchema) (d1 : List (String × PValue))
    (hp : FieldSchema.parse fd = Except.ok fs)
    (habs : dictContains d name = false)
    (hdef : fs.default ≠ PValue.none)
    (h : validateField d name fd = Except.ok d1) :
    dictContains d1 name = true ∧ dictGet d1 name = fs.default := by
  rw [validateField_eq_ok d name fd fs hp] at h
  rw [if_neg (by rw [habs]; exact fun hh => Bool.noConfusion hh)] at h
  rw [if_pos (bne_iff_ne.mpr hdef)] at h
  cases hv : fs.validateValue fs.default with
  | ok u =>
    rw [hv] at h
    simp at h
    subst h
    exact ⟨dictContains_dictSet_self d name fs.default,
      dictGet_dictSet_self d name fs.default⟩
  | error e => rw [hv] at h; exact absurd h (by simp)

theorem validateField_missing (d : List (String × PValue)) (name : String)
    (fd : PValue) (fs : FieldSchema)
    (hp : FieldSchema.parse fd = Except.ok fs)
    (habs : dictContains d name = false)
    (hdef : fs.default = PValue.none)
    (hreq : fs.isRequired = true) :
    validateField d name fd = Except.error (VErr.missingField name) := by
  rw [validateField_eq_ok d name fd fs hp]
  rw [if_neg (by rw [habs]; exact fun hh => Bool.noConfusion hh)]
  rw [if_neg (by rw [hdef]; simp)]
  rw [if_pos hreq]

theorem validateFields_append (l1 l2 : List (String × PValue))
    (d : List (String × PValue)) :
    validateFields (l1 ++ l2) d =
      (match validateFields l1 d with
       | Except.ok d1 => validateFields l2 d1
       | Except.error e => Except.error e) := by
  induction l1 generalizing d with
  | nil => simp [validateFields]
  | cons p rest ih =>
    cases p with
    | mk name fd =>
      simp only [List.cons_append, validateFields]
      cases h : validateField d name fd with
      | ok d1 => simp [ih]
      | error e => simp

theorem validateFields_preserves (l : List (String × PValue)) :
    ∀ (d d1 : List (String × PValue)), validateFields l d = Except.ok d1 →
      ∀ x, (∀ q ∈ l, q.1 ≠ x) →
        dictContains d1 x = dictContains d x ∧ dictGet d1 x = dictGet d x := by
  induction l with
  | nil =>
    intro d d1 h x _
    simp [validateFields] at h
    subst h
    exact ⟨rfl, rfl⟩
  | cons p rest ih =>
    intro d d1 h x hx
    cases p with
    | mk name fd =>
      simp only [validateFields] at h
      cases hv : validateField d name fd with
      | ok dmid =>
        rw [hv] at h
        have hxname : x ≠ name := fun hh => hx (name, fd) (by simp) hh.symm
        have h1 := validateField_preserves d name fd dmid hv x hxname
        have h2 := ih dmid d1 h x (fun q hq => hx q (by simp [hq]))
        exact ⟨h2.1.trans h1.1, h2.2.trans h1.2⟩
      | error e => rw [hv] at h; exact absurd h (by simp)

theorem nodup_split_keys (pre post : List (String × PValue)) (name : String) (fd : PValue)
    (hnd : ((pre ++ (name, fd) :: post).map Prod.fst).Nodup) :
    (∀ q ∈ pre, q.1 ≠ name) ∧ (∀ q ∈ post, q.1 ≠ name) := by
  rw [List.map_append, List.map_cons] at hnd
  obtain ⟨h1, h2, h3⟩ := List.nodup_append.mp hnd
  constructor
  · intro q hq hqname
    exact (List.disjoint_left.mp h3 (List.mem_map.mpr ⟨q, hq, hqname⟩))
      (List.mem_cons_self _ _)
  · intro q hq hqname
    exact (List.nodup_cons.mp h2).1 (List.mem_map.mpr ⟨q, hq, hqname⟩)

/-- Claim C7: schema validation of a mapping shape rejects any
non-mapping value; for each declared field absent from the value, a
defined (non-`None`) default is materialized into the value, and
otherwise a required field makes validation fail with a missing-field
error (shown both as non-success for any declared field and as the
exact error for the first declared field); for primitive-tag shapes a
`None` value is accepted and any other value must be an instance of the
registered native type (with `object`, the entry for tag `any`,
accepting everything). -/
theorem schema_validation_spec :
    (∀ (b : Bool) (desc : String) (fields : List (String × PValue)) (v : PValue),
      (∀ dv, v ≠ PValue.dict dv) →
      ParameterSchema.validateValue ⟨b, PValue.dict fields, desc⟩ v =
        Except.error (VErr.notADict v)) ∧
    (∀ (b : Bool) (desc : String) (fields : List (String × PValue))
        (dv dv1 : List (String × PValue)) (name : String) (fd : PValue)
        (fs : FieldSchema),
      ParameterSchema.validateValue ⟨b, PValue.dict fields, desc⟩ (PValue.dict dv) =
        Except.ok (PValue.dict dv1) →
      (name, fd) ∈ fields → (fields.map Prod.fst).Nodup →
      dictContains dv name = false →
      FieldSchema.parse fd = Except.ok fs → fs.default ≠ PValue.none →
      dictContains dv1 name = true ∧ dictGet dv1 name = fs.default) ∧
    (∀ (b : Bool) (desc : String) (fields : List (String × PValue))
        (dv : List (String × PValue)) (name : String) (fd : PValue)
        (fs : FieldSchema),
      (name, fd) ∈ fields → (fields.map Prod.fst).Nodup →
      dictContains dv name = false →
      FieldSchema.parse fd = Except.ok fs → fs.default = PValue.none →
      fs.isRequired = true →
      ∀ w, ParameterSchema.validateValue ⟨b, PValue.dict fields, desc⟩ (PValue.dict dv) ≠
        Except.ok w) ∧
    (∀ (b : Bool) (desc : String) (rest : List (String × PValue))
        (dv : List (String × PValue)) (name : String) (fd : PValue)
        (fs : FieldSchema),
      dictContains dv name = false →
      FieldSchema.parse fd = Except.ok fs → fs.default = PValue.none →
      fs.isRequired = true →
      ParameterSchema.validateValue ⟨b, PValue.dict ((name, fd) :: rest), desc⟩
        (PValue.dict dv) = Except.error (VErr.missingField name)) ∧
    (∀ (b : Bool) (desc : String) (tag : String) (ty : PyTy) (v : PValue),
      typeMapGet (PValue.str tag) = some ty →
      (ParameterSchema.validateValue ⟨b, PValue.str tag, desc⟩ v = Except.ok v ↔
        (v = PValue.none ∨ ty = PyTy.obj ∨ pyIsinstance v ty = true))) := by
  refine ⟨?_, ?_, ?_, ?_, ?_⟩
  · intro b desc fields v hv
    cases v <;> simp [ParameterSchema.validateValue]
    exact absurd rfl (hv _)
  · intro b desc fields dv dv1 name fd fs hval hmem hnd habs hp hdef
    have hvf : validateFields fields dv = Except.ok dv1 := by
      simp only [ParameterSchema.validateValue] at hval
      cases hh : validateFields fields dv with
      | ok x => rw [hh] at hval; simp at hval; rw [hval]
      | error e => rw [hh] at hval; exact absurd hval (by simp)
    obtain ⟨pre, post, hsplit⟩ := List.append_of_mem hmem
    subst hsplit
    obtain ⟨hpreK, hpostK⟩ := nodup_split_keys pre post name fd hnd
    rw [validateFields_append] at hvf
    cases hpre2 : validateFields pre dv with
    | error e => rw [hpre2] at hvf; exact absurd hvf (by simp)
    | ok dpre =>
      rw [hpre2] at hvf
      simp only [validateFields] at hvf
      cases hvfield : validateField dpre name fd with
      | error e => rw [hvfield] at hvf; exact absurd hvf (by simp)
      | ok dmid =>
        rw [hvfield] at hvf
        have hpres := validateFields_preserves pre dv dpre hpre2 name hpreK
        have habs2 : dictContains dpre name = false := hpres.1.trans habs
        have hdm := validateField_default dpre name fd fs dmid hp habs2 hdef hvfield
        have hpost2 := validateFields_preserves post dmid dv1 hvf name hpostK
        exact ⟨hpost2.1.trans hdm.1, hpost2.2.trans hdm.2⟩
  · intro b desc fields dv name fd fs hmem hnd habs hp hdef hreq w hval
    obtain ⟨dv1, hvf⟩ : ∃ dv1, validateFields fields dv = Except.ok dv1 := by
      simp only [ParameterSchema.validateValue] at hval
      cases hh : validateFields fields dv with
      | ok x => exact ⟨x, rfl⟩
      | error e => rw [hh] at hval; exact absurd hval (by simp)
    obtain ⟨pre, post, hsplit⟩ := List.append_of_mem hmem
    subst hsplit
    obtain ⟨hpreK, _⟩ := nodup_split_keys pre post name fd hnd
    rw [validateFields_append] at hvf
    cases hpre2 : validateFields pre dv with
    | error e => rw [hpre2] at hvf; exact absurd hvf (by simp)
    | ok dpre =>
      rw [hpre2] at hvf
      simp only [validateFields] at hvf
      have hpres := validateFields_preserves pre dv dpre hpre2 name hpreK
      have habs2 : dictContains dpre name = false := hpres.1.trans habs
      rw [validateField_missing dpre name fd fs hp habs2 hdef hreq] at hvf
      exact absurd hvf (by simp)
  · intro b desc rest dv name fd fs habs hp hdef hreq
    simp only [ParameterSchema.validateValue, validateFields]
    rw [validateField_missing dv name fd fs hp habs hdef hreq]
  · intro b desc tag ty v h
    by_cases hv : v = PValue.none
    · subst hv
      simp [ParameterSchema.validateValue]
    · simp only [ParameterSchema.validateValue, if_neg hv, FieldSchema.parse]
      simp only [FieldSchema.validateValue, if_neg hv, h]
      by_cases hobj : ty = PyTy.obj
      · simp [hobj, hv]
      · by_cases hinst : pyIsinstance v ty = true
        · simp [hobj, hinst, hv]
        · simp [hobj, hinst, hv]

theorem schema_validation_witness :
    (dictContains [("b", PValue.str "x"), ("a", PValue.int 7)] "a" = true ∧
      dictGet [("b", PValue.str "x"), ("a", PValue.int 7)] "a" = PValue.int 7) ∧
    ParameterSchema.validateValue
      ⟨false, PValue.dict [("r", PValue.dict [("type", PValue.str "string"),
        ("required", PValue.bool true)])], ""⟩ (PValue.dict []) =
      Except.error (VErr.missingField "r") ∧
    ParameterSchema.validateValue ⟨false, PValue.str "integer", ""⟩ (PValue.bool true) =
      Except.ok (PValue.bool true) ∧
    ParameterSchema.validateValue
      ⟨false, PValue.dict [("a", PValue.str "integer")], ""⟩ (PValue.int 3) =
      Except.error (VErr.notADict (PValue.int 3)) := by
  refine ⟨?_, ?_, ?_, ?_⟩
  · exact schema_validation_spec.2.1 false ""
      [("a", PValue.dict [("type", PValue.str "integer"), ("default", PValue.int 7)]),
        ("b", PValue.str "string")]
      [("b", PValue.str "x")] [("b", PValue.str "x"), ("a", PValue.int 7)]
      "a" (PValue.dict [("type", PValue.str "integer"), ("default", PValue.int 7)])
      ⟨PValue.str "integer", PValue.bool false, PValue.str "", PValue.int 7⟩
      rfl (by decide) (by decide) rfl rfl (by decide)
  · exact schema_validation_spec.2.2.2.1 false ""
      [] [] "r" (PValue.dict [("type", PValue.str "string"), ("required", PValue.bool true)])
      ⟨PValue.str "string", PValue.bool true, PValue.str "", PValue.none⟩
      rfl rfl rfl rfl
  · exact (schema_validation_spec.2.2.2.2 false "" "integer" PyTy.int (PValue.bool true)
      rfl).mpr (Or.inr (Or.inr rfl))
  · exact schema_validation_spec.1 false "" [("a", PValue.str "integer")] (PValue.int 3)
      (fun dv h => PValue.noConfusion h)

theorem toLower_eq_self_of_isDigit (c : Char) (h : c.isDigit = true) : c.toLower = c := by
  simp only [Char.isDigit, Bool.and_eq_true, decide_eq_true_eq] at h
  have h57 : c.toNat ≤ 57 := UInt32.toNat_le_of_le (by decide) h.2
  unfold Char.toLower
  rw [if_neg]
  omega

theorem pyLower_eq_self (s : String)
    (h : ∀ c ∈ s.toList, c.isDigit = true ∨ c = '.') : pyLower s = s := by
  unfold pyLower
  have hmap : s.toList.map Char.toLower = s.toList := by
    calc s.toList.map Char.toLower = s.toList.map id :=
          List.map_congr_left (fun c hc => by
            rcases h c hc with hd | hd
            · exact toLower_eq_self_of_isDigit c hd
            · rw [hd]; decide)
      _ = s.toList := List.map_id _
  rw [hmap]
  rfl

theorem pyIsdigit_chars (s : String) (h : pyIsdigit s = true) :
    ∀ c ∈ s.toList, c.isDigit = true := by
  unfold pyIsdigit at h
  simp only [Bool.and_eq_true] at h
  exact fun c hc => List.all_eq_true.mp h.2 c hc

theorem mem_removeFirstDot (l : List Char) (a : Char) (ha : a ∈ l) :
    a = '.' ∨ a ∈ removeFirstDot l := by
  induction l with
  | nil => cases ha
  | cons c rest ih =>
    by_cases hc : c = '.'
    · rcases List.mem_cons.mp ha with rfl | hrest
      · exact Or.inl hc
      · rw [removeFirstDot, if_pos hc]
        exact Or.inr hrest
    · rw [removeFirstDot, if_neg hc]
      rcases List.mem_cons.mp ha with rfl | hrest
      · exact Or.inr (List.mem_cons_self _ _)
      · rcases ih hrest with hd | hm
        · exact Or.inl hd
        · exact Or.inr (List.mem_cons_of_mem _ hm)

theorem dotdigit_chars (s : String) (h : pyIsdigit (pyRemoveFirstDot s) = true) :
    ∀ c ∈ s.toList, c.isDigit = true ∨ c = '.' := by
  intro c hc
  rcases mem_removeFirstDot s.toList c hc with hd | hm
  · exact Or.inr hd
  · exact Or.inl (pyIsdigit_chars (pyRemoveFirstDot s) h c hm)

theorem pyLower_ne_of_digits (s w : String) (h : pyIsdigit s = true)
    (hw : pyIsdigit w = false) : pyLower s ≠ w := by
  rw [pyLower_eq_self s (fun c hc => Or.inl (pyIsdigit_chars s h c hc))]
  intro heq
  subst heq
  rw [hw] at h
  cases h

theorem pyLower_ne_of_dotdigits (s w : String)
    (h : pyIsdigit (pyRemoveFirstDot s) = true)
    (hw : pyIsdigit (pyRemoveFirstDot w) = false) : pyLower s ≠ w := by
  rw [pyLower_eq_self s (dotdigit_chars s h)]
  intro heq
  subst heq
  rw [hw] at h
  cases h

theorem resolve_literal_counterexample :
    resolveStringLeaf (fun _ => " hello ") "\x7b\x7b greeting \x7d\x7d" =
      PValue.str "hello" ∧
    PValue.str "hello" ≠ PValue.str " hello " ∧
    resolveStringLeaf (fun _ => "-5") "\x7b\x7b n \x7d\x7d" = PValue.str "-5" ∧
    PValue.str "-5" ≠ PValue.int (-5) := by
  refine ⟨by decide, by decide, by decide, by decide⟩

/-- Claim C8 as amended: for a string config leaf containing template
markers, the resolver first strips surrounding whitespace from the
rendered result and then converts a case-insensitive `true` / `false`
to the boolean, a case-insensitive `null` / `none` to `None`, an
unsigned all-digit string to `int`, and a string whose first `'.'`
removed leaves only digits to `float`; every other rendered result is
returned as the *stripped* string.  (As originally stated the claim
fails twice: a signed numeric literal such as `-5` is kept as a string,
and a non-literal result is returned stripped, not unchanged.) -/
theorem resolve_literal_conversion (render : String → String) (s : String)
    (h : hasTemplateMarkers s = true) :
    (pyLower (pyStrip (render s)) = "true" →
      resolveStringLeaf render s = PValue.bool true) ∧
    (pyLower (pyStrip (render s)) = "false" →
      resolveStringLeaf render s = PValue.bool false) ∧
    ((pyLower (pyStrip (render s)) = "null" ∨ pyLower (pyStrip (render s)) = "none") →
      resolveStringLeaf render s = PValue.none) ∧
    (pyIsdigit (pyStrip (render s)) = true →
      resolveStringLeaf render s =
        PValue.int (Int.ofNat (digitsToNat (pyStrip (render s))))) ∧
    (pyIsdigit (pyStrip (render s)) = false →
      pyIsdigit (pyRemoveFirstDot (pyStrip (render s))) = true →
      resolveStringLeaf render s = PValue.float (pyStrip (render s))) ∧
    (pyLower (pyStrip (render s)) ≠ "true" →
      pyLower (pyStrip (render s)) ≠ "false" →
      pyLower (pyStrip (render s)) ≠ "null" →
      pyLower (pyStrip (render s)) ≠ "none" →
      pyIsdigit (pyStrip (render s)) = false →
      pyIsdigit (pyRemoveFirstDot (pyStrip (render s))) = false →
      resolveStringLeaf render s = PValue.str (pyStrip (render s))) := by
  have hres : resolveStringLeaf render s = convertRendered (render s) := by
    simp [resolveStringLeaf, h]
  rw [hres]
  refine ⟨?_, ?_, ?_, ?_, ?_, ?_⟩
  · intro hL
    simp [convertRendered, hL]
  · intro hL
    simp [convertRendered, hL]
  · rintro (hL | hL) <;> simp [convertRendered, hL]
  · intro hdig
    have g1 := beq_eq_false_iff_ne.mpr (pyLower_ne_of_digits _ "true" hdig (by decide))
    have g2 := beq_eq_false_iff_ne.mpr (pyLower_ne_of_digits _ "false" hdig (by decide))
    have g3 := beq_eq_false_iff_ne.mpr (pyLower_ne_of_digits _ "null" hdig (by decide))
    have g4 := beq_eq_false_iff_ne.mpr (pyLower_ne_of_digits _ "none" hdig (by decide))
    simp [convertRendered, g1, g2, g3, g4, hdig]
  · intro hdig hdot
    have g1 := beq_eq_false_iff_ne.mpr (pyLower_ne_of_dotdigits _ "true" hdot (by decide))
    have g2 := beq_eq_false_iff_ne.mpr (pyLower_ne_of_dotdigits _ "false" hdot (by decide))
    have g3 := beq_eq_false_iff_ne.mpr (pyLower_ne_of_dotdigits _ "null" hdot (by decide))
    have g4 := beq_eq_false_iff_ne.mpr (pyLower_ne_of_dotdigits _ "none" hdot (by decide))
    simp [convertRendered, g1, g2, g3, g4, hdig, hdot]
  · intro h1 h2 h3 h4 h5 h6
    simp [convertRendered, beq_eq_false_iff_ne.mpr h1, beq_eq_false_iff_ne.mpr h2,
      beq_eq_false_iff_ne.mpr h3, beq_eq_false_iff_ne.mpr h4, h5, h6]

theorem resolve_literal_witness :
    resolveStringLeaf (fun _ => " True ") "\x7b\x7b b \x7d\x7d" = PValue.bool true ∧
    resolveStringLeaf (fun _ => "42") "\x7b\x7b n \x7d\x7d" = PValue.int 42 ∧
    resolveStringLeaf (fun _ => "2.5") "\x7b\x7b x \x7d\x7d" = PValue.float "2.5" ∧
    resolveStringLeaf (fun _ => " abc ") "\x7b\x7b t \x7d\x7d" = PValue.str "abc" := by
  refine ⟨?_, ?_, ?_, ?_⟩
  · exact (resolve_literal_conversion (fun _ => " True ") "\x7b\x7b b \x7d\x7d"
      (by decide)).1 (by decide)
  · exact ((resolve_literal_conversion (fun _ => "42") "\x7b\x7b n \x7d\x7d"
      (by decide)).2.2.2.1 (by decide))
  · exact ((resolve_literal_conversion (fun _ => "2.5") "\x7b\x7b x \x7d\x7d"
      (by decide)).2.2.2.2.1 (by decide) (by decide))
  · exact ((resolve_literal_conversion (fun _ => " abc ") "\x7b\x7b t \x7d\x7d"
      (by decide)).2.2.2.2.2 (by decide) (by decide) (by decide) (by decide)
      (by decide) (by decide))

theorem renderIter_iterate (step : String → String) :
    ∀ (fuel : Nat) (s : String), ∃ k ≤ fuel,
      renderIter step fuel s = step^[k] s ∧
      (k < fuel → hasTemplateMarkers (renderIter step fuel s) = false ∨
        step (renderIter step fuel s) = renderIter step fuel s) := by
  intro fuel
  induction fuel with
  | zero =>
    intro s
    exact ⟨0, Nat.le_refl 0, rfl, fun h => absurd h (by omega)⟩
  | succ k ih =>
    intro s
    by_cases hm : hasTemplateMarkers s = true
    · by_cases hfix : step s = s
      · have hval : renderIter step (k + 1) s = s := by
          simp [renderIter, hm, hfix]
        exact ⟨0, by omega, by rw [hval]; rfl, fun _ => Or.inr (by rw [hval]; exact hfix)⟩
      · have hval : renderIter step (k + 1) s = renderIter step k (step s) := by
          simp [renderIter, hm, beq_eq_false_iff_ne.mpr hfix]
        obtain ⟨j, hj, hjeq, hjcond⟩ := ih (step s)
        refine ⟨j + 1, by omega, ?_, ?_⟩
        · rw [hval, hjeq]
          exact (Function.iterate_succ_apply step j s).symm
        · intro hlt
          rw [hval]
          exact hjcond (by omega)
    · have hm' : hasTemplateMarkers s = false := by
        cases hh : hasTemplateMarkers s
        · rfl
        · exact absurd hh hm
      have hval : renderIter step (k + 1) s = s := by
        simp [renderIter, hm']
      exact ⟨0, by omega, by rw [hval]; rfl, fun _ => Or.inl (by rw [hval]; exact hm')⟩

/-- Claim C9: `render_template` is the identity on marker-free strings
(hence idempotent on them); on any input it applies the one-pass
renderer at most `max_iterations = 10` times, the result is the last
rendered text, and whenever it stops before exhausting the cap it does
so because the text has no markers left or a fixpoint was reached. -/
theorem render_template_fixpoint (step : String → String) (s : String) :
    (hasTemplateMarkers s = false →
      renderTemplate step s = s ∧
      renderTemplate step (renderTemplate step s) = renderTemplate step s) ∧
    (∃ k ≤ maxIterations, renderTemplate step s = step^[k] s ∧
      (k < maxIterations →
        hasTemplateMarkers (renderTemplate step s) = false ∨
        step (renderTemplate step s) = renderTemplate step s)) := by
  constructor
  · intro hm
    have hid : renderTemplate step s = s := by
      unfold renderTemplate maxIterations
      simp [renderIter, hm]
    refine ⟨hid, ?_⟩
    rw [hid]
    exact hid
  · exact renderIter_iterate step maxIterations s

theorem render_template_witness :
    hasTemplateMarkers "hello" = false ∧
    renderTemplate (fun t => t) "hello" = "hello" ∧
    renderTemplate (fun t => t) (renderTemplate (fun t => t) "hello") =
      renderTemplate (fun t => t) "hello" := by
  have h := (render_template_fixpoint (fun t => t) "hello").1 (by decide)
  exact ⟨by decide, h.1, h.2⟩

theorem transferDeliver_at (v : PValue) (sl : Slots) (conn : WiredConn) (t : PortKey) :
    transferDeliver v sl conn t =
      (if (!conn.is_external && (!conn.is_streaming && conn.has_target_ref)) &&
          conn.target == t
       then v else sl t) := by
  unfold transferDeliver
  by_cases he : conn.is_external = true
  · simp [he]
  · by_cases hs : conn.is_streaming = true
    · simp [he, hs]
    · by_cases hr : conn.has_target_ref = true
      · by_cases ht : conn.target = t
        · subst ht; simp [he, hs, hr]
        · have h1 : (conn.target == t) = false := beq_eq_false_iff_ne.mpr ht
          have h2 : ¬ (t = conn.target) := fun h => ht h.symm
          simp [he, hs, hr, h1, h2]
      · simp [he, hs, hr]

theorem foldl_transferDeliver (v : PValue) (t : PortKey) :
    ∀ (l : List WiredConn) (sl : Slots),
      (l.foldl (transferDeliver v) sl) t =
        (if l.any (fun conn =>
            (!conn.is_external && (!conn.is_streaming && conn.has_target_ref)) &&
              conn.target == t)
         then v else sl t) := by
  intro l
  induction l with
  | nil => intro sl; simp
  | cons conn rest ih =>
    intro sl
    rw [List.foldl_cons, ih, List.any_cons]
    by_cases h1 : ((!conn.is_external && (!conn.is_streaming && conn.has_target_ref)) &&
        conn.target == t) = true <;>
      by_cases h2 : (rest.any (fun conn =>
        (!conn.is_external && (!conn.is_streaming && conn.has_target_ref)) &&
          conn.target == t)) = true <;>
      simp [h1, h2, transferDeliver_at]

theorem transferValue_at (conns : List WiredConn) (src : PortKey) (v : PValue)
    (sl : Slots) (t : PortKey) :
    transferValue conns src v sl t =
      (if conns.any (assignsTo src t) then v else sl t) := by
  unfold transferValue
  rw [foldl_transferDeliver, List.any_filter]
  rfl

theorem transferOutputs_unchanged (conns : List WiredConn) (nodeId : String) :
    ∀ (outputs : List OutPort) (sl : Slots) (t : PortKey),
      (∀ p ∈ outputs, p.is_streaming = false → p.value ≠ PValue.none →
        conns.any (assignsTo (nodeId, p.name) t) = false) →
      transferNonStreamingOutputs conns nodeId outputs sl t = sl t := by
  intro outputs
  induction outputs with
  | nil => intro sl t _; rfl
  | cons p rest ih =>
    intro sl t hno
    have hcons : transferNonStreamingOutputs conns nodeId (p :: rest) sl =
        transferNonStreamingOutputs conns nodeId rest
          (transferOutputStep conns nodeId sl p) := rfl
    rw [hcons]
    have hrest : ∀ q ∈ rest, q.is_streaming = false → q.value ≠ PValue.none →
        conns.any (assignsTo (nodeId, q.name) t) = false :=
      fun q hq => hno q (by simp [hq])
    rw [ih (transferOutputStep conns nodeId sl p) t hrest]
    unfold transferOutputStep
    by_cases hp : (!p.is_streaming && p.value != PValue.none) = true
    · rw [if_pos hp]
      have hps : p.is_streaming = false := by
        cases hss : p.is_streaming
        · rfl
        · rw [hss] at hp; simp at hp
      have hpv : p.value ≠ PValue.none := by
        intro hv
        rw [hv] at hp
        simp at hp
      rw [transferValue_at, hno p (by simp) hps hpv]
      simp
    · rw [if_neg hp]

/-- Claim C10: after a node runs in the sequential phase, a
non-streaming output port whose value is `None` leaves every connected
target parameter slot unchanged (first conjunct, which also covers
streaming and unconnected ports); and a non-`None` value is assigned to
the connected target parameter slot exactly as it is — the conclusion
holds for every value `v`, with no hypothesis that `v` validates
against the target schema, because `transfer_value` writes
`target_param_ref.value` directly without re-validation. -/
theorem transfer_outputs_spec (conns : List WiredConn) (nodeId : String) :
    (∀ (outputs : List OutPort) (sl : Slots) (t : PortKey),
      (∀ p ∈ outputs, p.is_streaming = false → p.value ≠ PValue.none →
        conns.any (assignsTo (nodeId, p.name) t) = false) →
      transferNonStreamingOutputs conns nodeId outputs sl t = sl t) ∧
    (∀ (pre post : List OutPort) (p : OutPort) (sl : Slots) (t : PortKey),
      p.is_streaming = false → p.value ≠ PValue.none →
      conns.any (assignsTo (nodeId, p.name) t) = true →
      (∀ q ∈ post, q.is_streaming = false → q.value ≠ PValue.none →
        conns.any (assignsTo (nodeId, q.name) t) = false) →
      transferNonStreamingOutputs conns nodeId (pre ++ p :: post) sl t = p.value) := by
  constructor
  · exact transferOutputs_unchanged conns nodeId
  · intro pre post p sl t hps hpv hany hpost
    have hsplit : transferNonStreamingOutputs conns nodeId (pre ++ p :: post) sl =
        transferNonStreamingOutputs conns nodeId post
          (transferOutputStep conns nodeId
            (transferNonStreamingOutputs conns nodeId pre sl) p) := by
      simp [transferNonStreamingOutputs, List.foldl_append]
    rw [hsplit, transferOutputs_unchanged conns nodeId post _ t hpost]
    unfold transferOutputStep
    rw [if_pos (by simp [hps, bne_iff_ne.mpr hpv])]
    rw [transferValue_at, if_pos hany]

theorem transfer_outputs_witness :
    transferNonStreamingOutputs [connNM] "n" [portNone] (fun _ => PValue.none)
      ("m", "inp") = PValue.none ∧
    transferNonStreamingOutputs [connNM] "n" [portIntFive] (fun _ => PValue.none)
      ("m", "inp") = PValue.int 5 ∧
    (connNM.target_schema.validateValue (PValue.int 5)).isOk = false := by
  refine ⟨?_, ?_, by decide⟩
  · exact (transfer_outputs_spec [connNM] "n").1 [portNone]
      (fun _ => PValue.none) ("m", "inp")
      (by
        intro q hq hqs hqv
        simp at hq
        rw [hq] at hqv
        exact absurd rfl hqv)
  · exact (transfer_outputs_spec [connNM] "n").2 [] [] portIntFive
      (fun _ => PValue.none) ("m", "inp") rfl (by decide) (by decide)
      (by intro q hq; cases hq)

end StreamWorkflow
